import Mathlib

/-!
# avahi-daemon D-Bus protocol layer (`avahi-daemon/dbus-protocol.c`)

A shallow embedding of the peer registry, the per-peer entry-group registry, the
request dispatchers and the disconnect monitor, followed by theorems about them.

Conventions of the embedding.

* `guint` values are natural numbers kept below `2^32`; increments wrap.
* A C string is a `String`; `!*s` is `s = ""`.
* Every call that leaves the file (into the advertisement engine, into libdbus, into
  the main loop) is appended to `Server.trace`, oldest first.  What those calls
  return is supplied by an `AvahiCore` value.
* A pointer to an `EntryGroupInfo` is the serial number of the engine group the record
  exclusively owns; a pointer to a `Client` is its position in `server->clients`.
-/

namespace Avahi

/-! ## Constants -/

/-- Modulus of `guint` arithmetic (32-bit unsigned). -/
def GUINT_MOD : Nat := 4294967296

def AVAHI_DBUS_NAME : String := "org.freedesktop.Avahi"
def AVAHI_DBUS_INTERFACE_SERVER : String := "org.freedesktop.Avahi.Server"
def AVAHI_DBUS_PATH_SERVER : String := "/org/freedesktop/Avahi/Server"
def AVAHI_DBUS_INTERFACE_ENTRY_GROUP : String := "org.freedesktop.Avahi.EntryGroup"

/-- Value of the libdbus constant of the same name. -/
def DBUS_INTERFACE_LOCAL : String := "org.freedesktop.Local"
/-- Value of the libdbus constant of the same name. -/
def DBUS_INTERFACE_DBUS : String := "org.freedesktop.DBus"
/-- Value of the libdbus constant of the same name. -/
def DBUS_ERROR_ACCESS_DENIED : String := "org.freedesktop.DBus.Error.AccessDenied"

/-! ## D-Bus messages -/

/-- One argument of a message body. -/
inductive DBusArg where
  | int32 (v : Int)
  | uint16 (v : Nat)
  | string (v : String)
  | object_path (v : String)
  | array_string (v : List String)
  deriving DecidableEq, Repr

inductive DBusMessageType where
  | method_call
  | method_return
  | error
  | signal
  deriving DecidableEq, Repr

/-- An incoming message as the handlers see it. -/
structure DBusMessage where
  type : DBusMessageType
  sender : String
  path : String
  interface : Option String
  member : String
  args : List DBusArg
  deriving DecidableEq, Repr

/-- The libdbus test `dbus_message_is_method_call(m, interface, method)`: the message is a
method call with that member, and its interface, when present, is the given one. -/
def dbus_message_is_method_call (m : DBusMessage) (interface method : String) : Bool :=
  decide (m.type = .method_call) && decide (m.member = method) &&
    (m.interface.isNone || decide (m.interface = some interface))

/-- The libdbus test `dbus_message_is_signal(m, interface, name)`. -/
def dbus_message_is_signal (m : DBusMessage) (interface name : String) : Bool :=
  decide (m.type = .signal) && decide (m.member = name) &&
    (m.interface.isNone || decide (m.interface = some interface))

/-- The call `dbus_message_get_args(m, &error, DBUS_TYPE_INVALID)`: no argument is requested,
so nothing can fail to decode. -/
def get_args_none (_m : DBusMessage) : Bool := true

/-- The call `dbus_message_get_args(m, &error, STRING, &name, DBUS_TYPE_INVALID)`. -/
def get_args_NameAcquired (m : DBusMessage) : Option String :=
  match m.args with
  | .string name :: _ => some name
  | _ => none

/-- The call `dbus_message_get_args(m, &error, STRING, STRING, STRING, DBUS_TYPE_INVALID)`. -/
def get_args_NameOwnerChanged (m : DBusMessage) : Option (String × String × String) :=
  match m.args with
  | .string name :: .string old :: .string new :: _ => some (name, old, new)
  | _ => none

/-- Decoded arguments of `EntryGroup.AddService`. -/
structure AddServiceArgs where
  interface : Int
  protocol : Int
  type : String
  name : String
  domain : String
  host : String
  port : Nat
  txt : List String
  deriving DecidableEq, Repr

/-- The call `dbus_message_get_args` with the `AddService` signature
(INT32, INT32, STRING, STRING, STRING, STRING, UINT16, ARRAY of STRING). -/
def get_args_AddService (m : DBusMessage) : Option AddServiceArgs :=
  match m.args with
  | .int32 interface :: .int32 protocol :: .string type :: .string name :: .string domain ::
      .string host :: .uint16 port :: .array_string txt :: _ =>
    some ⟨interface, protocol, type, name, domain, host, port, txt⟩
  | _ => none

/-- Decoded arguments of `EntryGroup.AddAddress`. -/
structure AddAddressArgs where
  interface : Int
  protocol : Int
  name : String
  address : String
  deriving DecidableEq, Repr

/-- The call `dbus_message_get_args` with the `AddAddress` signature
(INT32, INT32, STRING, STRING). -/
def get_args_AddAddress (m : DBusMessage) : Option AddAddressArgs :=
  match m.args with
  | .int32 interface :: .int32 protocol :: .string name :: .string address :: _ =>
    some ⟨interface, protocol, name, address⟩
  | _ => none

/-- A message built and sent by this file. -/
inductive DBusOut where
  /-- Result of `dbus_message_new_error(m, error, NULL)`. -/
  | error (m : DBusMessage) (error : String)
  /-- Result of `dbus_message_new_method_return(m)` with the appended arguments. -/
  | method_return (m : DBusMessage) (args : List DBusArg)
  /-- Result of `dbus_message_new_signal(path, interface, name)` with arguments and destination. -/
  | signal (path interface name : String) (args : List DBusArg) (destination : Option String)
  deriving DecidableEq, Repr

inductive DBusHandlerResult where
  | HANDLED
  | NOT_YET_HANDLED
  deriving DecidableEq, Repr

/-- What is registered at an object path: the message function and its user data. -/
inductive Handler where
  /-- The pair `server_vtable`, `NULL`. -/
  | server
  /-- The pair `vtable` (whose message function is `msg_entry_group_impl`), `i`. -/
  | entry_group (i : Nat)
  deriving DecidableEq, Repr

/-! ## The advertisement engine -/

/-- A parsed network address (`AvahiAddress`). -/
structure AvahiAddress where
  family : Nat
  data : List Nat
  deriving DecidableEq, Repr

/-- Modelled from the spec: the engine's `AvahiIfIndex` type is declared outside this file; the
spec gives the interface argument as an int32 handed to the engine, so the conversion keeps
the value. -/
def AvahiIfIndex (v : Int) : Int := v

/-- Modelled from the spec: the engine's `AvahiProtocol` type is declared outside this file; the
spec gives the protocol argument as an int32 handed to the engine, so the conversion keeps
the value. -/
def AvahiProtocol (v : Int) : Int := v

/-- A call that leaves this file. -/
inductive Call where
  | avahi_entry_group_new (g : Nat)
  | avahi_entry_group_free (g : Nat)
  | avahi_entry_group_commit (g : Nat)
  | avahi_entry_group_get_state (g : Nat)
  | avahi_server_add_service_strlst (g : Nat) (interface protocol : Int) (type name : String)
      (domain host : Option String) (port : Nat) (strlst : List String)
  | avahi_server_add_address (g : Nat) (interface protocol : Int) (flags : Nat) (name : String)
      (a : AvahiAddress)
  | avahi_server_get_host_name
  | avahi_server_get_domain_name
  | avahi_server_get_host_name_fqdn
  | dbus_connection_send (msg : DBusOut)
  | dbus_connection_register_object_path (path : String) (h : Handler)
  | dbus_connection_unregister_object_path (path : String)
  | g_main_loop_quit
  deriving DecidableEq, Repr

/-- Answers of the external collaborators.  `result` is the integer an engine call returns
when made after the given trace; `text` is the string returned by the host/domain name queries. -/
structure AvahiCore where
  result : List Call → Call → Int
  text : List Call → Call → String
  avahi_address_parse : String → Option AvahiAddress

/-! ## Data model -/

/-- The record `struct EntryGroupInfo`.  The `client` back-pointer is the `Client` whose
`entry_groups` list holds the record. -/
structure EntryGroupInfo where
  id : Nat
  entry_group : Nat
  path : String
  deriving DecidableEq, Repr

/-- The record `struct Client`; `entry_groups` is the list from its head. -/
structure Client where
  id : Nat
  name : String
  current_id : Nat
  entry_groups : List EntryGroupInfo
  deriving DecidableEq, Repr

/-- The record `struct Server` together with what the bus connection holds (`objects`, the
registered object paths), the trace of outgoing calls and the number of engine groups
allocated so far; `avahi_entry_group_new` answers with that number, a reference no live
record holds. -/
structure Server where
  objects : List (String × Handler)
  clients : List Client
  current_id : Nat
  trace : List Call
  allocs : Nat
  deriving DecidableEq, Repr

/-! ## libdbus object tree -/

/-- The handler registered at exactly `path`, if any. -/
def object_lookup : List (String × Handler) → String → Option Handler
  | [], _ => none
  | (p, h) :: rest, path => if p = path then some h else object_lookup rest path

/-- The libdbus call `dbus_connection_register_object_path`: refused when the path already has
a handler. -/
def register_object_path (objects : List (String × Handler)) (path : String) (h : Handler) :
    List (String × Handler) :=
  match object_lookup objects path with
  | some _ => objects
  | none => (path, h) :: objects

/-- The libdbus call `dbus_connection_unregister_object_path`. -/
def unregister_object_path (objects : List (String × Handler)) (path : String) :
    List (String × Handler) :=
  objects.filter (fun o => decide (o.1 ≠ path))

/-! ## Registry operations -/

/-- The format `"/org/freedesktop/Avahi/Client%u/EntryGroup%u"`. -/
def entry_group_path (client_id id : Nat) : String :=
  "/org/freedesktop/Avahi/Client" ++ Nat.repr client_id ++ "/EntryGroup" ++ Nat.repr id

/-- Dereference of an `EntryGroupInfo` pointer: the record and the client that owns it. -/
def deref : List Client → Nat → Option (Client × EntryGroupInfo)
  | [], _ => none
  | c :: cs, i =>
    match c.entry_groups.find? (fun g => decide (g.entry_group = i)) with
    | some g => some (c, g)
    | none => deref cs i

/-- The function `entry_group_free`: the engine group is freed, the path unregistered and the
record unlinked from the list that holds it. -/
def entry_group_free (s : Server) (i : Nat) : Server :=
  match deref s.clients i with
  | none => s
  | some (_, g) =>
    { s with
      trace := s.trace ++ [Call.avahi_entry_group_free g.entry_group,
                           Call.dbus_connection_unregister_object_path g.path]
      objects := unregister_object_path s.objects g.path
      clients := s.clients.map (fun c =>
        { c with entry_groups := c.entry_groups.filter (fun x => decide (x.entry_group ≠ i)) }) }

/-- The loop `while (c->entry_groups) entry_group_free(c->entry_groups);` of `client_free`. -/
def client_free_loop : Nat → Server → Nat → Server
  | 0, s, _ => s
  | fuel + 1, s, c =>
    match s.clients[c]? with
    | none => s
    | some cl =>
      match cl.entry_groups with
      | [] => s
      | g :: _ => client_free_loop fuel (entry_group_free s g.entry_group) c

/-- The function `client_free`. -/
def client_free (s : Server) (c : Nat) : Server :=
  match s.clients[c]? with
  | none => s
  | some cl =>
    let s1 := client_free_loop cl.entry_groups.length s c
    { s1 with clients := s1.clients.eraseIdx c }

/-- The search loop of `client_get`: position of the first client called `name`. -/
def client_find : List Client → String → Option Nat
  | [], _ => none
  | c :: cs, name => if name = c.name then some 0 else (client_find cs name).map (· + 1)

/-- The function `client_get`. -/
def client_get (s : Server) (name : String) (create : Bool) : Server × Option Nat :=
  match client_find s.clients name with
  | some k => (s, some k)
  | none =>
    if !create then (s, none)
    else
      ({ s with
         clients := { id := s.current_id, name := name, current_id := 0, entry_groups := [] }
                      :: s.clients
         current_id := (s.current_id + 1) % GUINT_MOD }, some 0)

/-- Update in place of the client at position `k`. -/
def client_update (f : Client → Client) : List Client → Nat → List Client
  | [], _ => []
  | c :: cs, 0 => f c :: cs
  | c :: cs, k + 1 => c :: client_update f cs k

/-! ## Replies -/

/-- The function `respond_error` (the text argument is always `NULL`). -/
def respond_error (s : Server) (m : DBusMessage) (error : String) : Server × DBusHandlerResult :=
  ({ s with trace := s.trace ++ [Call.dbus_connection_send (DBusOut.error m error)] },
   DBusHandlerResult.HANDLED)

/-- The function `respond_ok`. -/
def respond_ok (s : Server) (m : DBusMessage) : Server × DBusHandlerResult :=
  ({ s with trace := s.trace ++ [Call.dbus_connection_send (DBusOut.method_return m [])] },
   DBusHandlerResult.HANDLED)

/-- The function `respond_string`. -/
def respond_string (s : Server) (m : DBusMessage) (text : String) : Server × DBusHandlerResult :=
  ({ s with trace := s.trace ++
      [Call.dbus_connection_send (DBusOut.method_return m [DBusArg.string text])] },
   DBusHandlerResult.HANDLED)

/-- The function `entry_group_callback`, called by the engine with the record `i`. -/
def entry_group_callback (s : Server) (state : Int) (i : Nat) : Server :=
  match deref s.clients i with
  | none => s
  | some (client, info) =>
    { s with trace := s.trace ++ [Call.dbus_connection_send
        (DBusOut.signal info.path AVAHI_DBUS_INTERFACE_ENTRY_GROUP "StateChanged"
          [DBusArg.int32 state] (some client.name))] }

/-! ## Disconnect monitor -/

/-- The function `msg_signal_filter_impl`. -/
def msg_signal_filter_impl (s : Server) (m : DBusMessage) : Server × DBusHandlerResult :=
  if dbus_message_is_signal m DBUS_INTERFACE_LOCAL "Disconnected" then
    ({ s with trace := s.trace ++ [Call.g_main_loop_quit] }, DBusHandlerResult.HANDLED)
  else if dbus_message_is_signal m DBUS_INTERFACE_DBUS "NameAcquired" then
    match get_args_NameAcquired m with
    | none => (s, DBusHandlerResult.NOT_YET_HANDLED)
    | some _ => (s, DBusHandlerResult.HANDLED)
  else if dbus_message_is_signal m DBUS_INTERFACE_DBUS "NameOwnerChanged" then
    match get_args_NameOwnerChanged m with
    | none => (s, DBusHandlerResult.NOT_YET_HANDLED)
    | some (name, _, new) =>
      if new = "" then
        match client_get s name false with
        | (s1, some client) => (client_free s1 client, DBusHandlerResult.NOT_YET_HANDLED)
        | (s1, none) => (s1, DBusHandlerResult.NOT_YET_HANDLED)
      else (s, DBusHandlerResult.NOT_YET_HANDLED)
  else (s, DBusHandlerResult.NOT_YET_HANDLED)

/-! ## Request dispatchers -/

/-- The `AddService` branch of `msg_entry_group_impl`, after access control. -/
def entry_group_AddService (E : AvahiCore) (s : Server) (m : DBusMessage) (info : EntryGroupInfo) :
    Server × DBusHandlerResult :=
  match get_args_AddService m with
  | none => (s, DBusHandlerResult.NOT_YET_HANDLED)
  | some a =>
    if a.type = "" ∨ a.name = "" ∨ a.port = 0 then (s, DBusHandlerResult.NOT_YET_HANDLED)
    else
      let strlst := a.txt
      let domain := if a.domain = "" then none else some a.domain
      let host := if a.host = "" then none else some a.host
      let call := Call.avahi_server_add_service_strlst info.entry_group
        (AvahiIfIndex a.interface) (AvahiProtocol a.protocol) a.type a.name domain host a.port strlst
      let s1 := { s with trace := s.trace ++ [call] }
      if E.result s.trace call < 0 then
        respond_error s1 m "org.freedesktop.Avahi.InvalidServiceError"
      else respond_ok s1 m

/-- The `AddAddress` branch of `msg_entry_group_impl`, after access control. -/
def entry_group_AddAddress (E : AvahiCore) (s : Server) (m : DBusMessage) (info : EntryGroupInfo) :
    Server × DBusHandlerResult :=
  match get_args_AddAddress m with
  | none => (s, DBusHandlerResult.NOT_YET_HANDLED)
  | some a =>
    if a.name = "" ∨ a.address = "" then (s, DBusHandlerResult.NOT_YET_HANDLED)
    else
      match E.avahi_address_parse a.address with
      | none => respond_error s m "org.freedesktop.Avahi.InvalidAddressError"
      | some addr =>
        let call := Call.avahi_server_add_address info.entry_group
          (AvahiIfIndex a.interface) (AvahiProtocol a.protocol) 0 a.name addr
        let s1 := { s with trace := s.trace ++ [call] }
        if E.result s.trace call < 0 then
          respond_error s1 m "org.freedesktop.Avahi.InvalidAddressError"
        else respond_ok s1 m

/-- The function `msg_entry_group_impl`; `i` is the user data registered with the path. -/
def msg_entry_group_impl (E : AvahiCore) (s : Server) (m : DBusMessage) (i : Nat) :
    Server × DBusHandlerResult :=
  match deref s.clients i with
  | none => (s, DBusHandlerResult.NOT_YET_HANDLED)
  | some (client, info) =>
    if m.sender ≠ client.name then respond_error s m DBUS_ERROR_ACCESS_DENIED
    else if dbus_message_is_method_call m AVAHI_DBUS_INTERFACE_ENTRY_GROUP "Free" then
      if !get_args_none m then (s, DBusHandlerResult.NOT_YET_HANDLED)
      else respond_ok (entry_group_free s i) m
    else if dbus_message_is_method_call m AVAHI_DBUS_INTERFACE_ENTRY_GROUP "Commit" then
      if !get_args_none m then (s, DBusHandlerResult.NOT_YET_HANDLED)
      else respond_ok
        { s with trace := s.trace ++ [Call.avahi_entry_group_commit info.entry_group] } m
    else if dbus_message_is_method_call m AVAHI_DBUS_INTERFACE_ENTRY_GROUP "GetState" then
      if !get_args_none m then (s, DBusHandlerResult.NOT_YET_HANDLED)
      else
        let call := Call.avahi_entry_group_get_state info.entry_group
        let t := E.result s.trace call
        ({ s with trace := s.trace ++
            [call, Call.dbus_connection_send (DBusOut.method_return m [DBusArg.int32 t])] },
         DBusHandlerResult.HANDLED)
    else if dbus_message_is_method_call m AVAHI_DBUS_INTERFACE_ENTRY_GROUP "AddService" then
      entry_group_AddService E s m info
    else if dbus_message_is_method_call m AVAHI_DBUS_INTERFACE_ENTRY_GROUP "AddAddress" then
      entry_group_AddAddress E s m info
    else (s, DBusHandlerResult.NOT_YET_HANDLED)

/-- The `EntryGroupNew` branch of `msg_server_impl`, after argument decoding. -/
def server_EntryGroupNew (s : Server) (m : DBusMessage) : Server × DBusHandlerResult :=
  match client_get s m.sender true with
  | (s1, none) => (s1, DBusHandlerResult.NOT_YET_HANDLED)
  | (s1, some k) =>
    match s1.clients[k]? with
    | none => (s1, DBusHandlerResult.NOT_YET_HANDLED)
    | some client =>
      let id := (client.current_id + 1) % GUINT_MOD
      let g := s1.allocs
      let path := entry_group_path client.id id
      let i : EntryGroupInfo := { id := id, entry_group := g, path := path }
      ({ s1 with
         clients := client_update
           (fun c => { c with current_id := id, entry_groups := i :: c.entry_groups }) s1.clients k
         objects := register_object_path s1.objects path (Handler.entry_group g)
         allocs := s1.allocs + 1
         trace := s1.trace ++
           [Call.avahi_entry_group_new g,
            Call.dbus_connection_register_object_path path (Handler.entry_group g),
            Call.dbus_connection_send (DBusOut.method_return m [DBusArg.object_path path])] },
       DBusHandlerResult.HANDLED)

/-- One of the three name queries of `msg_server_impl`: the engine is asked, the answer is sent. -/
def server_query (E : AvahiCore) (s : Server) (m : DBusMessage) (call : Call) :
    Server × DBusHandlerResult :=
  respond_string { s with trace := s.trace ++ [call] } m (E.text s.trace call)

/-- The function `msg_server_impl`. -/
def msg_server_impl (E : AvahiCore) (s : Server) (m : DBusMessage) : Server × DBusHandlerResult :=
  if dbus_message_is_method_call m AVAHI_DBUS_INTERFACE_SERVER "GetHostName" then
    if !get_args_none m then (s, DBusHandlerResult.NOT_YET_HANDLED)
    else server_query E s m Call.avahi_server_get_host_name
  else if dbus_message_is_method_call m AVAHI_DBUS_INTERFACE_SERVER "GetDomainName" then
    if !get_args_none m then (s, DBusHandlerResult.NOT_YET_HANDLED)
    else server_query E s m Call.avahi_server_get_domain_name
  else if dbus_message_is_method_call m AVAHI_DBUS_INTERFACE_SERVER "GetHostNameFqdn" then
    if !get_args_none m then (s, DBusHandlerResult.NOT_YET_HANDLED)
    else server_query E s m Call.avahi_server_get_host_name_fqdn
  else if dbus_message_is_method_call m AVAHI_DBUS_INTERFACE_SERVER "EntryGroupNew" then
    if !get_args_none m then (s, DBusHandlerResult.NOT_YET_HANDLED)
    else server_EntryGroupNew s m
  else (s, DBusHandlerResult.NOT_YET_HANDLED)

/-! ## Setup, shutdown and the event loop -/

/-- The state `dbus_protocol_setup` leaves when it returns 0. -/
def fresh_server : Server :=
  { objects := [(AVAHI_DBUS_PATH_SERVER, Handler.server)]
    clients := []
    current_id := 0
    trace := [Call.dbus_connection_register_object_path AVAHI_DBUS_PATH_SERVER Handler.server]
    allocs := 0 }

/-- The function `dbus_protocol_setup`; the arguments tell whether `dbus_bus_get` and
`dbus_bus_request_name` succeed.  Returns the global `server` and the result code. -/
def dbus_protocol_setup (bus_get_ok request_name_ok : Bool) : Option Server × Int :=
  if !bus_get_ok then (none, -1)
  else if !request_name_ok then (none, -1)
  else (some fresh_server, 0)

/-- The loop `while (server->clients) client_free(server->clients);` of `dbus_protocol_shutdown`. -/
def shutdown_loop : Nat → Server → Server
  | 0, s => s
  | fuel + 1, s =>
    match s.clients with
    | [] => s
    | _ :: _ => shutdown_loop fuel (client_free s 0)

/-- The teardown part of `dbus_protocol_shutdown`: every client is freed and the connection is
closed, which drops every registered path. -/
def shutdown_teardown (s : Server) : Server :=
  { shutdown_loop s.clients.length s with objects := [] }

/-- The function `dbus_protocol_shutdown` on the global `server`: afterwards it is `NULL`.  The
second component is the trace of outgoing calls at that point. -/
def dbus_protocol_shutdown (server : Option Server) : Option Server × List Call :=
  match server with
  | none => (none, [])
  | some s => (none, (shutdown_teardown s).trace)

/-- The function `dbus_protocol_server_state_changed` on the global `server`. -/
def dbus_protocol_server_state_changed (server : Option Server) (state : Int) : Option Server :=
  match server with
  | none => none
  | some s =>
    some { s with trace := s.trace ++ [Call.dbus_connection_send
      (DBusOut.signal AVAHI_DBUS_PATH_SERVER AVAHI_DBUS_INTERFACE_SERVER "StateChanged"
        [DBusArg.int32 state] none)] }

/-- Dispatch of one incoming message by libdbus: the filter runs first; unless it reports the
message handled, the handler registered at the message's path runs. -/
def dispatch (E : AvahiCore) (s : Server) (m : DBusMessage) : Server :=
  match msg_signal_filter_impl s m with
  | (s1, DBusHandlerResult.HANDLED) => s1
  | (s1, DBusHandlerResult.NOT_YET_HANDLED) =>
    match object_lookup s1.objects m.path with
    | none => s1
    | some Handler.server => (msg_server_impl E s1 m).1
    | some (Handler.entry_group i) => (msg_entry_group_impl E s1 m i).1

/-- What the event loop delivers. -/
inductive Event where
  /-- A message arrives on the bus connection. -/
  | message (m : DBusMessage)
  /-- The engine reports a new state of the group owned by record `i`. -/
  | entry_group_state (state : Int) (i : Nat)
  /-- The engine reports a new state of the whole server. -/
  | server_state (state : Int)
  /-- The daemon calls `dbus_protocol_shutdown`. -/
  | shutdown
  deriving DecidableEq, Repr

/-- One turn of the event loop on the global `server`. -/
def step (E : AvahiCore) (server : Option Server) (e : Event) : Option Server :=
  match server, e with
  | none, _ => none
  | some s, Event.message m => some (dispatch E s m)
  | some s, Event.entry_group_state state i => some (entry_group_callback s state i)
  | some s, Event.server_state state => dbus_protocol_server_state_changed (some s) state
  | some s, Event.shutdown => (dbus_protocol_shutdown (some s)).1

/-- The event loop over a finite sequence of events. -/
def run (E : AvahiCore) (server : Option Server) (evs : List Event) : Option Server :=
  evs.foldl (step E) server

/-! ## Sample values -/

/-- An engine that accepts every record and parses no address. -/
def engine_ok : AvahiCore :=
  { result := fun _ _ => 0
    text := fun _ _ => "host"
    avahi_address_parse := fun _ => none }

/-- A method call from `sender` on `path`. -/
def method_call (sender path interface member : String) (args : List DBusArg) : DBusMessage :=
  { type := DBusMessageType.method_call, sender := sender, path := path,
    interface := some interface, member := member, args := args }

/-- The request `Server.EntryGroupNew` from `sender`. -/
def msg_new (sender : String) : DBusMessage :=
  method_call sender AVAHI_DBUS_PATH_SERVER AVAHI_DBUS_INTERFACE_SERVER "EntryGroupNew" []

/-- The bus signal that `name` lost its owner. -/
def msg_vanished (name : String) : DBusMessage :=
  { type := DBusMessageType.signal, sender := DBUS_INTERFACE_DBUS, path := "/org/freedesktop/DBus",
    interface := some DBUS_INTERFACE_DBUS, member := "NameOwnerChanged",
    args := [DBusArg.string name, DBusArg.string name, DBusArg.string ""] }

/-- The server after client `:1.5` has created its first entry group. -/
def sample_server : Server := dispatch engine_ok fresh_server (msg_new ":1.5")

/-- An `AddService` request on the first entry group of the first client. -/
def msg_add_service (sender domain host : String) (port : Nat) : DBusMessage :=
  method_call sender "/org/freedesktop/Avahi/Client0/EntryGroup1" AVAHI_DBUS_INTERFACE_ENTRY_GROUP
    "AddService"
    [DBusArg.int32 (-1), DBusArg.int32 (-1), DBusArg.string "_http._tcp", DBusArg.string "svc",
     DBusArg.string domain, DBusArg.string host, DBusArg.uint16 port, DBusArg.array_string []]

/-- An `AddAddress` request on the first entry group of the first client. -/
def msg_add_address (sender name address : String) : DBusMessage :=
  method_call sender "/org/freedesktop/Avahi/Client0/EntryGroup1" AVAHI_DBUS_INTERFACE_ENTRY_GROUP
    "AddAddress"
    [DBusArg.int32 (-1), DBusArg.int32 (-1), DBusArg.string name, DBusArg.string address]

/-- The decoded arguments of `msg_add_service ":1.5" "" "box.local" 80`. -/
def sample_service_args : AddServiceArgs :=
  { interface := -1, protocol := -1, type := "_http._tcp", name := "svc", domain := "",
    host := "box.local", port := 80, txt := [] }

/-- The server after clients `:1.5` and `:1.7` have each created one entry group. -/
def sample_server2 : Server := dispatch engine_ok sample_server (msg_new ":1.7")

/-- Value of a decimal digit character. -/
def digit_value (c : Char) : Nat := c.toNat - 48

/-- Value of a string of decimal digits, most significant first. -/
def digits_value (l : List Char) : Nat := l.foldl (fun a c => 10 * a + digit_value c) 0

/-! ## Observations and invariants -/

/-- Every live entry-group record, client by client from the head of `server->clients`. -/
def live_of (cs : List Client) : List EntryGroupInfo := cs.flatMap (fun c => c.entry_groups)

/-- The live entry-group records of a server. -/
def live (s : Server) : List EntryGroupInfo := live_of s.clients

/-- A path is routable to an entry group when an entry-group handler is registered at it. -/
def routable (s : Server) (path : String) : Prop :=
  ∃ i, object_lookup s.objects path = some (Handler.entry_group i)

/-- Structural invariant of the registries; it holds in every reachable state. -/
structure Inv (s : Server) : Prop where
  names : (s.clients.map (fun c => c.name)).Nodup
  serials : ((live s).map (fun g => g.entry_group)).Nodup
  serials_lt : ∀ g ∈ live s, g.entry_group < s.allocs
  paths_wf : ∀ c ∈ s.clients, ∀ g ∈ c.entry_groups, g.path = entry_group_path c.id g.id
  objects_sound : ∀ p i, (p, Handler.entry_group i) ∈ s.objects →
    ∃ g ∈ live s, g.entry_group = i ∧ g.path = p
  objects_keys : (s.objects.map (fun o => o.1)).Nodup
  server_obj : (AVAHI_DBUS_PATH_SERVER, Handler.server) ∈ s.objects
  server_only : ∀ p, (p, Handler.server) ∈ s.objects → p = AVAHI_DBUS_PATH_SERVER

/-- Counter invariant that holds as long as at most `N` entry groups have been requested and no
counter has wrapped: the counters are the true counts, client ids and, within a client,
entry-group ids are pairwise different. -/
structure Unwrapped (N : Nat) (s : Server) : Prop where
  server_counter : ∃ K, K ≤ N ∧ s.current_id = K % GUINT_MOD ∧ ∀ c ∈ s.clients, c.id < K
  client_ids : (s.clients.map (fun c => c.id)).Nodup
  client_counter : ∀ c ∈ s.clients, ∃ M, M ≤ N ∧ c.current_id = M % GUINT_MOD ∧
    ∀ g ∈ c.entry_groups, ∃ j, 1 ≤ j ∧ j ≤ M ∧ g.id = j % GUINT_MOD
  group_ids : ∀ c ∈ s.clients, (c.entry_groups.map (fun g => g.id)).Nodup
  registered : ∀ g ∈ live s, (g.path, Handler.entry_group g.entry_group) ∈ s.objects

/-- The request is `Server.EntryGroupNew` (whatever its path). -/
def is_new_request (e : Event) : Bool :=
  match e with
  | Event.message m => dbus_message_is_method_call m AVAHI_DBUS_INTERFACE_SERVER "EntryGroupNew"
  | _ => false

/-- The calls made while the records of one client are destroyed, in order. -/
def teardown_calls (gs : List EntryGroupInfo) : List Call :=
  gs.flatMap (fun g => [Call.avahi_entry_group_free g.entry_group,
                        Call.dbus_connection_unregister_object_path g.path])

/-- Client `:1.7` creates an entry group and leaves the bus, `k` times over. -/
def churn : Nat → List Event
  | 0 => []
  | k + 1 => churn k ++ [Event.message (msg_new ":1.7"), Event.message (msg_vanished ":1.7")]

/-- Client `:1.5` creates an entry group and stays; client `:1.7` comes and goes 2^32 - 1 times
and then creates one more entry group. -/
def wrap_events : List Event :=
  Event.message (msg_new ":1.5") :: churn 4294967295 ++ [Event.message (msg_new ":1.7")]

/-- The sequence `wrap_events` followed by the departure of client `:1.7`. -/
def wrap_events_gone : List Event :=
  wrap_events ++ [Event.message (msg_vanished ":1.7")]

/-- The state between two rounds of `churn`, after `k` rounds, with trace `tr`. -/
def churn_state (k : Nat) (tr : List Call) : Server :=
  { objects := [(entry_group_path 0 1, Handler.entry_group 0),
                (AVAHI_DBUS_PATH_SERVER, Handler.server)]
    clients := [{ id := 0, name := ":1.5", current_id := 1,
                  entry_groups := [{ id := 1, entry_group := 0, path := entry_group_path 0 1 }] }]
    current_id := (k + 1) % GUINT_MOD
    trace := tr
    allocs := k + 1 }

/-- The state after `wrap_events`, with trace `tr`: the second client has been given the
numeric id 0 again, and its entry group the path of the first client's entry group. -/
def wrap_state (tr : List Call) : Server :=
  { objects := [(entry_group_path 0 1, Handler.entry_group 0),
                (AVAHI_DBUS_PATH_SERVER, Handler.server)]
    clients := [{ id := 0, name := ":1.7", current_id := 1,
                  entry_groups :=
                    [{ id := 1, entry_group := 4294967296, path := entry_group_path 0 1 }] },
                { id := 0, name := ":1.5", current_id := 1,
                  entry_groups := [{ id := 1, entry_group := 0, path := entry_group_path 0 1 }] }]
    current_id := 1
    trace := tr
    allocs := 4294967297 }

/-! # Theorems -/

/-! ## Handle requests -/

theorem is_method_call_member {m : DBusMessage} {interface method : String}
    (h : dbus_message_is_method_call m interface method = true) : m.member = method := by
  simp only [dbus_message_is_method_call, Bool.and_eq_true, decide_eq_true_eq] at h
  exact h.1.2

theorem is_method_call_other {m : DBusMessage} {interface method : String}
    (interface2 method2 : String)
    (h : dbus_message_is_method_call m interface method = true) (hne : method ≠ method2) :
    dbus_message_is_method_call m interface2 method2 = false := by
  have hm := is_method_call_member h
  simp [dbus_message_is_method_call, hm, hne]

/-- C1.  A request delivered to a live entry group whose sender is not the owning client is
answered with one access-denied error and nothing else happens: the state is the old one with
that single send appended to the trace, whatever the method and the arguments. -/
theorem access_control_denies (E : AvahiCore) (s : Server) (m : DBusMessage) (i : Nat)
    (P : Client) (H : EntryGroupInfo) (hlive : deref s.clients i = some (P, H))
    (hsender : m.sender ≠ P.name) :
    msg_entry_group_impl E s m i =
      ({ s with trace := s.trace ++
          [Call.dbus_connection_send (DBusOut.error m DBUS_ERROR_ACCESS_DENIED)] },
       DBusHandlerResult.HANDLED) := by
  simp [msg_entry_group_impl, hlive, hsender, respond_error]

theorem access_control_denies_witness :
    msg_entry_group_impl engine_ok sample_server (msg_add_service ":1.9" "" "" 80) 0 =
      ({ sample_server with trace := sample_server.trace ++
          [Call.dbus_connection_send
            (DBusOut.error (msg_add_service ":1.9" "" "" 80) DBUS_ERROR_ACCESS_DENIED)] },
       DBusHandlerResult.HANDLED) :=
  access_control_denies engine_ok sample_server (msg_add_service ":1.9" "" "" 80) 0
    ⟨0, ":1.5", 1, [⟨1, 0, "/org/freedesktop/Avahi/Client0/EntryGroup1"⟩]⟩
    ⟨1, 0, "/org/freedesktop/Avahi/Client0/EntryGroup1"⟩ (by decide) (by decide)

/-- C4, as stated, fails: the owner of a live entry group sends `AddService` with port 0 and
valid other arguments; no reply of any kind is sent, the handler returns not-yet-handled. -/
theorem add_service_port_zero_no_reply :
    msg_entry_group_impl engine_ok sample_server (msg_add_service ":1.5" "" "" 0) 0 =
        (sample_server, DBusHandlerResult.NOT_YET_HANDLED) ∧
      (msg_entry_group_impl engine_ok sample_server (msg_add_service ":1.5" "" "" 0) 0).1.trace =
        sample_server.trace := by
  decide

/-- C4, amended.  An `AddService` request from the owner of a live entry group whose decoded port
is 0 changes nothing: no reply is sent, the engine is not called, the state is returned as it
was and the handler reports not-yet-handled. -/
theorem add_service_port_zero (E : AvahiCore) (s : Server) (m : DBusMessage) (i : Nat)
    (P : Client) (H : EntryGroupInfo) (a : AddServiceArgs)
    (hlive : deref s.clients i = some (P, H)) (hsender : m.sender = P.name)
    (hcall : dbus_message_is_method_call m AVAHI_DBUS_INTERFACE_ENTRY_GROUP "AddService" = true)
    (hargs : get_args_AddService m = some a) (hport : a.port = 0) :
    msg_entry_group_impl E s m i = (s, DBusHandlerResult.NOT_YET_HANDLED) := by
  have h1 := is_method_call_other AVAHI_DBUS_INTERFACE_ENTRY_GROUP
    "Free" hcall (by decide)
  have h2 := is_method_call_other AVAHI_DBUS_INTERFACE_ENTRY_GROUP
    "Commit" hcall (by decide)
  have h3 := is_method_call_other AVAHI_DBUS_INTERFACE_ENTRY_GROUP
    "GetState" hcall (by decide)
  simp [msg_entry_group_impl, hlive, hsender, h1, h2, h3, hcall, entry_group_AddService, hargs,
    hport]

theorem add_service_port_zero_witness :
    msg_entry_group_impl engine_ok sample_server (msg_add_service ":1.5" "local" "" 0) 0 =
      (sample_server, DBusHandlerResult.NOT_YET_HANDLED) :=
  add_service_port_zero engine_ok sample_server (msg_add_service ":1.5" "local" "" 0) 0
    ⟨0, ":1.5", 1, [⟨1, 0, "/org/freedesktop/Avahi/Client0/EntryGroup1"⟩]⟩
    ⟨1, 0, "/org/freedesktop/Avahi/Client0/EntryGroup1"⟩
    ⟨-1, -1, "_http._tcp", "svc", "local", "", 0, []⟩ (by decide) (by decide) (by decide)
    (by decide) (by decide)

/-- C5.  An `AddAddress` request from the owner of a live entry group that decodes with non-empty
name and address, and whose address the parser rejects, is answered with the error
`org.freedesktop.Avahi.InvalidAddressError`; that send is the only thing appended to the trace
(the engine is not called) and the registry is unchanged. -/
theorem add_address_unparsable (E : AvahiCore) (s : Server) (m : DBusMessage) (i : Nat)
    (P : Client) (H : EntryGroupInfo) (a : AddAddressArgs)
    (hlive : deref s.clients i = some (P, H)) (hsender : m.sender = P.name)
    (hcall : dbus_message_is_method_call m AVAHI_DBUS_INTERFACE_ENTRY_GROUP "AddAddress" = true)
    (hargs : get_args_AddAddress m = some a) (hname : a.name ≠ "") (haddr : a.address ≠ "")
    (hparse : E.avahi_address_parse a.address = none) :
    msg_entry_group_impl E s m i =
      ({ s with trace := s.trace ++ [Call.dbus_connection_send
          (DBusOut.error m "org.freedesktop.Avahi.InvalidAddressError")] },
       DBusHandlerResult.HANDLED) := by
  have h1 := is_method_call_other AVAHI_DBUS_INTERFACE_ENTRY_GROUP
    "Free" hcall (by decide)
  have h2 := is_method_call_other AVAHI_DBUS_INTERFACE_ENTRY_GROUP
    "Commit" hcall (by decide)
  have h3 := is_method_call_other AVAHI_DBUS_INTERFACE_ENTRY_GROUP
    "GetState" hcall (by decide)
  have h4 := is_method_call_other AVAHI_DBUS_INTERFACE_ENTRY_GROUP
    "AddService" hcall (by decide)
  simp [msg_entry_group_impl, hlive, hsender, h1, h2, h3, h4, hcall, entry_group_AddAddress,
    hargs, hname, haddr, hparse, respond_error]

theorem add_address_unparsable_witness :
    msg_entry_group_impl engine_ok sample_server (msg_add_address ":1.5" "box" "not-an-address") 0 =
      ({ sample_server with trace := sample_server.trace ++ [Call.dbus_connection_send
          (DBusOut.error (msg_add_address ":1.5" "box" "not-an-address")
            "org.freedesktop.Avahi.InvalidAddressError")] },
       DBusHandlerResult.HANDLED) :=
  add_address_unparsable engine_ok sample_server (msg_add_address ":1.5" "box" "not-an-address") 0
    ⟨0, ":1.5", 1, [⟨1, 0, "/org/freedesktop/Avahi/Client0/EntryGroup1"⟩]⟩
    ⟨1, 0, "/org/freedesktop/Avahi/Client0/EntryGroup1"⟩
    ⟨-1, -1, "box", "not-an-address"⟩ (by decide) (by decide) (by decide) (by decide) (by decide)
    (by decide) (by decide)

/-- C6.  An `AddService` request from the owner of a live entry group that passes validation
(non-empty type and name, non-zero port) makes exactly one add-service call to the engine,
followed by one reply.  The domain handed over is absent exactly when the request's domain is
empty and is the request's domain otherwise; likewise, independently, for the host; the group
is the record's own, and interface, protocol, type, name, port and text records are the
request's.  An empty string is never handed over as domain or host. -/
theorem add_service_normalises (E : AvahiCore) (s : Server) (m : DBusMessage) (i : Nat)
    (P : Client) (H : EntryGroupInfo) (a : AddServiceArgs)
    (hlive : deref s.clients i = some (P, H)) (hsender : m.sender = P.name)
    (hcall : dbus_message_is_method_call m AVAHI_DBUS_INTERFACE_ENTRY_GROUP "AddService" = true)
    (hargs : get_args_AddService m = some a)
    (htype : a.type ≠ "") (hname : a.name ≠ "") (hport : a.port ≠ 0) :
    ∃ (domain host : Option String) (reply : DBusOut),
      (msg_entry_group_impl E s m i).1 =
        { s with trace := s.trace ++
          [Call.avahi_server_add_service_strlst H.entry_group a.interface a.protocol a.type a.name
             domain host a.port a.txt,
           Call.dbus_connection_send reply] } ∧
      (domain = none ↔ a.domain = "") ∧ (a.domain ≠ "" → domain = some a.domain) ∧
      (host = none ↔ a.host = "") ∧ (a.host ≠ "" → host = some a.host) ∧
      domain ≠ some "" ∧ host ≠ some "" := by
  have h1 := is_method_call_other AVAHI_DBUS_INTERFACE_ENTRY_GROUP
    "Free" hcall (by decide)
  have h2 := is_method_call_other AVAHI_DBUS_INTERFACE_ENTRY_GROUP
    "Commit" hcall (by decide)
  have h3 := is_method_call_other AVAHI_DBUS_INTERFACE_ENTRY_GROUP
    "GetState" hcall (by decide)
  refine ⟨if a.domain = "" then none else some a.domain,
    if a.host = "" then none else some a.host,
    if E.result s.trace (Call.avahi_server_add_service_strlst H.entry_group a.interface
        a.protocol a.type a.name (if a.domain = "" then none else some a.domain)
        (if a.host = "" then none else some a.host) a.port a.txt) < 0
      then DBusOut.error m "org.freedesktop.Avahi.InvalidServiceError"
      else DBusOut.method_return m [], ?_, ?_, ?_, ?_, ?_, ?_, ?_⟩
  · simp only [msg_entry_group_impl, hlive, hsender, h1, h2, h3, hcall, entry_group_AddService,
      hargs, htype, hname, hport, AvahiIfIndex, AvahiProtocol]
    simp only [ne_eq, not_true_eq_false, if_false, or_self, Bool.false_eq_true, if_true]
    split_ifs <;> simp [respond_error, respond_ok]
  · split <;> simp_all
  · intro h; simp [h]
  · split <;> simp_all
  · intro h; simp [h]
  · split <;> simp_all
  · split <;> simp_all

theorem add_service_normalises_witness :
    ∃ (domain host : Option String) (reply : DBusOut),
      (msg_entry_group_impl engine_ok sample_server
          (msg_add_service ":1.5" "" "box.local" 80) 0).1 =
        { sample_server with trace := sample_server.trace ++
          [Call.avahi_server_add_service_strlst 0 sample_service_args.interface
             sample_service_args.protocol sample_service_args.type sample_service_args.name
             domain host sample_service_args.port sample_service_args.txt,
           Call.dbus_connection_send reply] } ∧
      (domain = none ↔ sample_service_args.domain = "") ∧
      (sample_service_args.domain ≠ "" → domain = some sample_service_args.domain) ∧
      (host = none ↔ sample_service_args.host = "") ∧
      (sample_service_args.host ≠ "" → host = some sample_service_args.host) ∧
      domain ≠ some "" ∧ host ≠ some "" :=
  add_service_normalises engine_ok sample_server (msg_add_service ":1.5" "" "box.local" 80) 0
    ⟨0, ":1.5", 1, [⟨1, 0, "/org/freedesktop/Avahi/Client0/EntryGroup1"⟩]⟩
    ⟨1, 0, "/org/freedesktop/Avahi/Client0/EntryGroup1"⟩
    sample_service_args (by decide) (by decide) (by decide) (by decide) (by decide) (by decide)
    (by decide)

/-! ## Decimal rendering and object paths -/

theorem digit_value_digitChar (d : Nat) (h : d < 10) : digit_value (Nat.digitChar d) = d := by
  interval_cases d <;> rfl

theorem digitChar_ne_slash (d : Nat) (h : d < 10) : Nat.digitChar d ≠ '/' := by
  interval_cases d <;> decide

theorem toDigitsCore_acc (fuel : Nat) : ∀ (n : Nat) (acc : List Char),
    Nat.toDigitsCore 10 fuel n acc = Nat.toDigitsCore 10 fuel n [] ++ acc := by
  induction fuel with
  | zero => intro n acc; simp [Nat.toDigitsCore]
  | succ f ih =>
    intro n acc
    simp only [Nat.toDigitsCore]
    split_ifs with h
    · simp
    · rw [ih (n / 10) (Nat.digitChar (n % 10) :: acc), ih (n / 10) [Nat.digitChar (n % 10)]]
      simp

theorem digits_value_append (l : List Char) (c : Char) :
    digits_value (l ++ [c]) = 10 * digits_value l + digit_value c := by
  simp [digits_value, List.foldl_append]

theorem digits_value_toDigitsCore (fuel : Nat) : ∀ n : Nat, n < fuel →
    digits_value (Nat.toDigitsCore 10 fuel n []) = n := by
  induction fuel with
  | zero => intro n h; omega
  | succ f ih =>
    intro n h
    simp only [Nat.toDigitsCore]
    split_ifs with h0
    · have hn : n < 10 := by omega
      simp [digits_value, Nat.mod_eq_of_lt hn, digit_value_digitChar n hn]
    · rw [toDigitsCore_acc, digits_value_append, ih (n / 10) (by omega),
        digit_value_digitChar (n % 10) (Nat.mod_lt _ (by decide))]
      omega

theorem toDigitsCore_no_slash (fuel : Nat) : ∀ n : Nat,
    '/' ∉ Nat.toDigitsCore 10 fuel n [] := by
  induction fuel with
  | zero => intro n; simp [Nat.toDigitsCore]
  | succ f ih =>
    intro n
    simp only [Nat.toDigitsCore]
    have hd := digitChar_ne_slash (n % 10) (Nat.mod_lt _ (by decide))
    split_ifs with h0
    · simp [hd.symm]
    · rw [toDigitsCore_acc]
      simp [ih (n / 10), hd.symm]

theorem repr_data (n : Nat) : (Nat.repr n).data = Nat.toDigitsCore 10 (n + 1) n [] := rfl

theorem repr_injective {a b : Nat} (h : Nat.repr a = Nat.repr b) : a = b := by
  have h1 : (Nat.repr a).data = (Nat.repr b).data := by rw [h]
  rw [repr_data, repr_data] at h1
  have ha := digits_value_toDigitsCore (a + 1) a (by omega)
  have hb := digits_value_toDigitsCore (b + 1) b (by omega)
  rw [h1] at ha
  omega

theorem repr_no_slash (n : Nat) : '/' ∉ (Nat.repr n).data := by
  rw [repr_data]; exact toDigitsCore_no_slash _ _

theorem append_cons_inj {α : Type} (a : α) : ∀ (l1 l2 r1 r2 : List α), a ∉ l1 → a ∉ l2 →
    l1 ++ a :: r1 = l2 ++ a :: r2 → l1 = l2 ∧ r1 = r2 := by
  intro l1
  induction l1 with
  | nil =>
    intro l2 r1 r2 _ h2 h
    cases l2 with
    | nil => simpa using h
    | cons x xs =>
      simp only [List.nil_append, List.cons_append, List.cons.injEq] at h
      exact absurd (by simp [h.1]) h2
  | cons y ys ih =>
    intro l2 r1 r2 h1 h2 h
    cases l2 with
    | nil =>
      simp only [List.nil_append, List.cons_append, List.cons.injEq] at h
      exact absurd (by simp [h.1]) h1
    | cons x xs =>
      simp only [List.cons_append, List.cons.injEq] at h
      have := ih xs r1 r2 (fun hm => h1 (List.mem_cons_of_mem _ hm))
        (fun hm => h2 (List.mem_cons_of_mem _ hm)) h.2
      exact ⟨by rw [h.1, this.1], this.2⟩

theorem entry_group_path_data (c g : Nat) :
    (entry_group_path c g).data =
      "/org/freedesktop/Avahi/Client".data ++ ((Nat.repr c).data ++
        '/' :: ("EntryGroup".data ++ (Nat.repr g).data)) := by
  simp [entry_group_path, String.data_append]

theorem entry_group_path_inj {c1 g1 c2 g2 : Nat}
    (h : entry_group_path c1 g1 = entry_group_path c2 g2) : c1 = c2 ∧ g1 = g2 := by
  have hd : (entry_group_path c1 g1).data = (entry_group_path c2 g2).data := by rw [h]
  rw [entry_group_path_data, entry_group_path_data] at hd
  have h1 := List.append_cancel_left hd
  have h2 := append_cons_inj '/' _ _ _ _ (repr_no_slash c1) (repr_no_slash c2) h1
  have h3 := List.append_cancel_left h2.2
  exact ⟨repr_injective (String.ext_iff.mpr h2.1), repr_injective (String.ext_iff.mpr h3)⟩

theorem entry_group_path_ne_server (c g : Nat) :
    entry_group_path c g ≠ AVAHI_DBUS_PATH_SERVER := by
  intro h
  have hd : (entry_group_path c g).data = AVAHI_DBUS_PATH_SERVER.data := by rw [h]
  rw [entry_group_path_data] at hd
  have : AVAHI_DBUS_PATH_SERVER.data =
      "/org/freedesktop/Avahi/".data ++ ['S', 'e', 'r', 'v', 'e', 'r'] := by decide
  rw [this] at hd
  have : "/org/freedesktop/Avahi/Client".data = "/org/freedesktop/Avahi/".data ++
      ['C', 'l', 'i', 'e', 'n', 't'] := by decide
  rw [this, List.append_assoc] at hd
  have h1 := List.append_cancel_left hd
  simp at h1

/-! ## Basic facts about the registries -/

theorem object_lookup_none_iff (objs : List (String × Handler)) (p : String) :
    object_lookup objs p = none ↔ p ∉ objs.map (fun o => o.1) := by
  induction objs with
  | nil => simp [object_lookup]
  | cons o rest ih =>
    obtain ⟨q, h⟩ := o
    simp only [object_lookup, List.map_cons, List.mem_cons, not_or]
    split_ifs with hq
    · simp [hq]
    · simp [ih, Ne.symm hq]

theorem object_lookup_mem {objs : List (String × Handler)} {p : String} {h : Handler}
    (hl : object_lookup objs p = some h) : (p, h) ∈ objs := by
  induction objs with
  | nil => simp [object_lookup] at hl
  | cons o rest ih =>
    obtain ⟨q, h0⟩ := o
    simp only [object_lookup] at hl
    split_ifs at hl with hq
    · simp only [Option.some.injEq] at hl
      simp [hq, hl]
    · exact List.mem_cons_of_mem _ (ih hl)

theorem object_lookup_of_mem {objs : List (String × Handler)} {p : String} {h : Handler}
    (hk : (objs.map (fun o => o.1)).Nodup) (hm : (p, h) ∈ objs) :
    object_lookup objs p = some h := by
  induction objs with
  | nil => simp at hm
  | cons o rest ih =>
    obtain ⟨q, h0⟩ := o
    simp only [List.map_cons, List.nodup_cons, List.mem_map, not_exists, not_and] at hk
    simp only [object_lookup]
    rcases List.mem_cons.mp hm with heq | hin
    · simp only [Prod.mk.injEq] at heq
      simp [heq.1, heq.2]
    · split_ifs with hq
      · exact absurd hq.symm (hk.1 (p, h) hin)
      · exact ih hk.2 hin

theorem mem_register_object_path {objs : List (String × Handler)} {p : String} {h : Handler}
    {o : String × Handler} (ho : o ∈ objs) : o ∈ register_object_path objs p h := by
  unfold register_object_path
  split
  · exact ho
  · exact List.mem_cons_of_mem _ ho

theorem of_mem_register_object_path {objs : List (String × Handler)} {p : String} {h : Handler}
    {o : String × Handler} (ho : o ∈ register_object_path objs p h) :
    o ∈ objs ∨ (o = (p, h) ∧ object_lookup objs p = none) := by
  unfold register_object_path at ho
  split at ho
  · exact Or.inl ho
  · rename_i hn
    rcases List.mem_cons.mp ho with h1 | h1
    · exact Or.inr ⟨h1, hn⟩
    · exact Or.inl h1

theorem register_object_path_keys {objs : List (String × Handler)} (p : String) (h : Handler)
    (hk : (objs.map (fun o => o.1)).Nodup) :
    ((register_object_path objs p h).map (fun o => o.1)).Nodup := by
  unfold register_object_path
  split
  · exact hk
  · rename_i hn
    simp only [List.map_cons, List.nodup_cons]
    exact ⟨(object_lookup_none_iff objs p).mp hn, hk⟩

theorem mem_unregister_object_path {objs : List (String × Handler)} {p : String}
    {o : String × Handler} : o ∈ unregister_object_path objs p ↔ o ∈ objs ∧ o.1 ≠ p := by
  simp [unregister_object_path]

theorem live_of_append (a b : List Client) : live_of (a ++ b) = live_of a ++ live_of b := by
  simp [live_of]

theorem live_of_cons (c : Client) (cs : List Client) :
    live_of (c :: cs) = c.entry_groups ++ live_of cs := by
  simp [live_of]

theorem mem_live_of {cs : List Client} {g : EntryGroupInfo} :
    g ∈ live_of cs ↔ ∃ c ∈ cs, g ∈ c.entry_groups := by
  simp [live_of, List.mem_flatMap]

theorem deref_some {cs : List Client} {i : Nat} {c : Client} {g : EntryGroupInfo}
    (h : deref cs i = some (c, g)) : c ∈ cs ∧ g ∈ c.entry_groups ∧ g.entry_group = i := by
  induction cs with
  | nil => simp [deref] at h
  | cons c0 rest ih =>
    simp only [deref] at h
    split at h
    · rename_i g0 hf
      simp only [Option.some.injEq, Prod.mk.injEq] at h
      obtain ⟨rfl, rfl⟩ := h
      have h1 := List.find?_some hf
      have h2 := List.mem_of_find?_eq_some hf
      simp only [decide_eq_true_eq] at h1
      exact ⟨List.mem_cons_self _ _, h2, h1⟩
    · obtain ⟨h1, h2, h3⟩ := ih h
      exact ⟨List.mem_cons_of_mem _ h1, h2, h3⟩

theorem deref_of_mem {cs : List Client} {g : EntryGroupInfo} (h : g ∈ live_of cs) :
    ∃ c0 g0, deref cs g.entry_group = some (c0, g0) := by
  induction cs with
  | nil => simp [live_of] at h
  | cons c0 rest ih =>
    simp only [deref]
    split
    · exact ⟨_, _, rfl⟩
    · rename_i hn
      rw [live_of_cons, List.mem_append] at h
      rcases h with h | h
      · rw [List.find?_eq_none] at hn
        exact absurd (by simp) (hn g h)
      · exact ih h

theorem client_find_none {cs : List Client} {n : String} :
    client_find cs n = none ↔ ∀ c ∈ cs, c.name ≠ n := by
  induction cs with
  | nil => simp [client_find]
  | cons c rest ih =>
    simp only [client_find, List.mem_cons, forall_eq_or_imp]
    split_ifs with h
    · simp [h]
    · simp [ih, Ne.symm h]

theorem client_find_some {cs : List Client} {n : String} {k : Nat}
    (h : client_find cs n = some k) :
    ∃ pre c post, cs = pre ++ c :: post ∧ pre.length = k ∧ c.name = n ∧
      ∀ x ∈ pre, x.name ≠ n := by
  induction cs generalizing k with
  | nil => simp [client_find] at h
  | cons c rest ih =>
    simp only [client_find] at h
    split_ifs at h with hn
    · simp only [Option.some.injEq] at h
      exact ⟨[], c, rest, rfl, by simpa using h, hn.symm, by simp⟩
    · simp only [Option.map_eq_some'] at h
      obtain ⟨j, hj, rfl⟩ := h
      obtain ⟨pre, c0, post, h1, h2, h3, h4⟩ := ih hj
      refine ⟨c :: pre, c0, post, by simp [h1], by simp [h2], h3, ?_⟩
      intro x hx
      rcases List.mem_cons.mp hx with rfl | hx
      · exact Ne.symm hn
      · exact h4 x hx

theorem client_find_append {pre : List Client} (post : List Client) {c : Client} {n : String}
    (hc : c.name = n) (hpre : ∀ x ∈ pre, x.name ≠ n) :
    client_find (pre ++ c :: post) n = some pre.length := by
  induction pre with
  | nil => simp [client_find, hc]
  | cons x xs ih =>
    have hx : ¬ n = x.name := fun h => hpre x (List.mem_cons_self _ _) h.symm
    simp [client_find, hx, ih (fun y hy => hpre y (List.mem_cons_of_mem _ hy))]

theorem client_update_append (f : Client → Client) (pre post : List Client) (c : Client) :
    client_update f (pre ++ c :: post) pre.length = pre ++ f c :: post := by
  induction pre with
  | nil => simp [client_update]
  | cons x xs ih => simp [client_update, ih]

theorem getElem?_append_cons (pre post : List Client) (c : Client) :
    (pre ++ c :: post)[pre.length]? = some c := by
  induction pre with
  | nil => simp
  | cons x xs ih => simpa using ih

theorem getElem?_split {cs : List Client} {k : Nat} {c : Client} (h : cs[k]? = some c) :
    ∃ pre post, cs = pre ++ c :: post ∧ pre.length = k := by
  induction cs generalizing k with
  | nil => simp at h
  | cons x xs ih =>
    cases k with
    | zero =>
      simp only [List.getElem?_cons_zero, Option.some.injEq] at h
      exact ⟨[], xs, by simp [h], rfl⟩
    | succ j =>
      simp only [List.getElem?_cons_succ] at h
      obtain ⟨pre, post, h1, h2⟩ := ih h
      exact ⟨x :: pre, post, by simp [h1], by simp [h2]⟩

theorem eraseIdx_append_cons (pre post : List Client) (c : Client) :
    (pre ++ c :: post).eraseIdx pre.length = pre ++ post := by
  induction pre with
  | nil => simp
  | cons x xs ih => simp [ih]

/-! ## The structural invariant is preserved -/

theorem live_add_group_perm (pre post : List Client) (c c1 : Client) (g : EntryGroupInfo)
    (h : c1.entry_groups = g :: c.entry_groups) :
    (live_of (pre ++ c1 :: post)).Perm (g :: live_of (pre ++ c :: post)) := by
  rw [live_of_append, live_of_append, live_of_cons, live_of_cons, h]
  rw [List.cons_append]
  exact List.perm_middle

theorem Inv_quiet {s t : Server} (hI : Inv s) (hc : t.clients = s.clients)
    (ho : t.objects = s.objects) (ha : t.allocs = s.allocs) : Inv t := by
  obtain ⟨h1, h2, h3, h4, h5, h6, h7, h8⟩ := hI
  constructor
  · rw [hc]; exact h1
  · simp only [live, hc]; exact h2
  · simp only [live, hc, ha]; exact h3
  · rw [hc]; exact h4
  · simp only [live, hc, ho]; exact h5
  · rw [ho]; exact h6
  · rw [ho]; exact h7
  · rw [ho]; exact h8

theorem Inv_add_client {s t : Server} (hI : Inv s) (c : Client) (hn : ∀ x ∈ s.clients, x.name ≠ c.name)
    (hg : c.entry_groups = []) (hc : t.clients = c :: s.clients)
    (ho : t.objects = s.objects) (ha : t.allocs = s.allocs) : Inv t := by
  obtain ⟨h1, h2, h3, h4, h5, h6, h7, h8⟩ := hI
  have hl : live t = live s := by simp [live, hc, live_of_cons, hg]
  constructor
  · rw [hc]
    simp only [List.map_cons, List.nodup_cons, List.mem_map, not_exists, not_and]
    exact ⟨fun x hx => hn x hx, h1⟩
  · rw [hl]; exact h2
  · rw [hl, ha]; exact h3
  · rw [hc]
    intro x hx
    rcases List.mem_cons.mp hx with rfl | hx
    · simp [hg]
    · exact h4 x hx
  · rw [hl, ho]; exact h5
  · rw [ho]; exact h6
  · rw [ho]; exact h7
  · rw [ho]; exact h8

theorem Inv_add_group {s t : Server} (hI : Inv s) {pre post : List Client} {c c1 : Client}
    {g : EntryGroupInfo} (hs : s.clients = pre ++ c :: post)
    (hc : t.clients = pre ++ c1 :: post) (hname : c1.name = c.name) (hid : c1.id = c.id)
    (hgs : c1.entry_groups = g :: c.entry_groups) (hser : g.entry_group = s.allocs)
    (hpath : g.path = entry_group_path c.id g.id)
    (ho : t.objects = register_object_path s.objects g.path (Handler.entry_group s.allocs))
    (ha : t.allocs = s.allocs + 1) : Inv t := by
  obtain ⟨h1, h2, h3, h4, h5, h6, h7, h8⟩ := hI
  have hp : (live t).Perm (g :: live s) := by
    simp only [live, hc, hs]; exact live_add_group_perm pre post c c1 g hgs
  constructor
  · rw [hc]; rw [hs] at h1; simpa [hname] using h1
  · rw [(hp.map _).nodup_iff]
    simp only [List.map_cons, List.nodup_cons, List.mem_map, not_exists, not_and]
    refine ⟨fun x hx hxe => ?_, h2⟩
    have := h3 x hx
    omega
  · intro x hx
    rcases List.mem_cons.mp (hp.subset hx) with rfl | hx
    · omega
    · have := h3 x hx; omega
  · rw [hc]
    intro x hx y hy
    rw [hs] at h4
    rcases List.mem_append.mp hx with hx | hx
    · exact h4 x (List.mem_append_left _ hx) y hy
    · rcases List.mem_cons.mp hx with rfl | hx
      · rw [hgs] at hy
        rcases List.mem_cons.mp hy with rfl | hy
        · rw [hid]; exact hpath
        · rw [hid]; exact h4 c (by simp) y hy
      · exact h4 x (by simp [hx]) y hy
  · intro p i hm
    rw [ho] at hm
    rcases of_mem_register_object_path hm with hm | ⟨hm, _⟩
    · obtain ⟨g0, hg0, hg1, hg2⟩ := h5 p i hm
      exact ⟨g0, hp.symm.subset (List.mem_cons_of_mem _ hg0), hg1, hg2⟩
    · simp only [Prod.mk.injEq, Handler.entry_group.injEq] at hm
      exact ⟨g, hp.symm.subset (List.mem_cons_self _ _), by omega, hm.1.symm⟩
  · rw [ho]; exact register_object_path_keys _ _ h6
  · rw [ho]; exact mem_register_object_path h7
  · intro p hm
    rw [ho] at hm
    rcases of_mem_register_object_path hm with hm | ⟨hm, _⟩
    · exact h8 p hm
    · simp at hm

theorem live_of_map_filter (cs : List Client) (i : Nat) :
    live_of (cs.map (fun c =>
      { c with entry_groups := c.entry_groups.filter (fun x => decide (x.entry_group ≠ i)) })) =
      (live_of cs).filter (fun x => decide (x.entry_group ≠ i)) := by
  induction cs with
  | nil => simp [live_of]
  | cons c rest ih =>
    rw [List.map_cons, live_of_cons, live_of_cons, List.filter_append, ih]

theorem serial_unique {l : List EntryGroupInfo} (hn : (l.map (fun g => g.entry_group)).Nodup)
    {a b : EntryGroupInfo} (ha : a ∈ l) (hb : b ∈ l) (h : a.entry_group = b.entry_group) :
    a = b :=
  List.inj_on_of_nodup_map hn ha hb h

theorem Inv_free {s t : Server} (hI : Inv s) {i : Nat} {c : Client} {g : EntryGroupInfo}
    (hd : deref s.clients i = some (c, g))
    (hc : t.clients = s.clients.map (fun c =>
      { c with entry_groups := c.entry_groups.filter (fun x => decide (x.entry_group ≠ i)) }))
    (ho : t.objects = unregister_object_path s.objects g.path)
    (ha : t.allocs = s.allocs) : Inv t := by
  obtain ⟨h1, h2, h3, h4, h5, h6, h7, h8⟩ := hI
  obtain ⟨hcm, hgm, hgi⟩ := deref_some hd
  have hgl : g ∈ live s := mem_live_of.mpr ⟨c, hcm, hgm⟩
  have hl : live t = (live s).filter (fun x => decide (x.entry_group ≠ i)) := by
    simp only [live, hc]; exact live_of_map_filter _ _
  constructor
  · rw [hc, List.map_map]; exact h1
  · rw [hl]; exact h2.sublist ((List.filter_sublist _).map _)
  · intro x hx
    rw [hl] at hx
    rw [ha]; exact h3 x (List.mem_filter.mp hx).1
  · rw [hc]
    intro x hx y hy
    obtain ⟨x0, hx0, rfl⟩ := List.mem_map.mp hx
    exact h4 x0 hx0 y (List.mem_filter.mp hy).1
  · intro p j hm
    rw [ho] at hm
    obtain ⟨hm1, hm2⟩ := mem_unregister_object_path.mp hm
    obtain ⟨g0, hg0, hg1, hg2⟩ := h5 p j hm1
    refine ⟨g0, ?_, hg1, hg2⟩
    rw [hl, List.mem_filter]
    refine ⟨hg0, ?_⟩
    simp only [ne_eq, decide_not, Bool.not_eq_eq_eq_not, Bool.not_true, decide_eq_false_iff_not]
    intro hji
    have := serial_unique h2 hg0 hgl (by rw [hji, hgi])
    rw [this] at hg2
    exact hm2 hg2.symm
  · rw [ho]; exact h6.sublist ((List.filter_sublist _).map _)
  · rw [ho]
    refine mem_unregister_object_path.mpr ⟨h7, ?_⟩
    rw [h4 c hcm g hgm]
    exact (entry_group_path_ne_server _ _).symm
  · intro p hm
    rw [ho] at hm
    exact h8 p (mem_unregister_object_path.mp hm).1

theorem Inv_erase {s t : Server} (hI : Inv s) {pre post : List Client} {c : Client}
    (hs : s.clients = pre ++ c :: post) (hg : c.entry_groups = [])
    (hc : t.clients = pre ++ post) (ho : t.objects = s.objects) (ha : t.allocs = s.allocs) :
    Inv t := by
  obtain ⟨h1, h2, h3, h4, h5, h6, h7, h8⟩ := hI
  have hl : live t = live s := by
    simp [live, hc, hs, live_of_append, live_of_cons, hg]
  constructor
  · rw [hc]; rw [hs] at h1
    simp only [List.map_append, List.map_cons] at h1 ⊢
    exact h1.sublist (List.Sublist.append_left (List.sublist_cons_self _ _) _)
  · rw [hl]; exact h2
  · rw [hl, ha]; exact h3
  · rw [hc]
    intro x hx
    apply h4 x
    rw [hs]
    rcases List.mem_append.mp hx with hx | hx
    · exact List.mem_append_left _ hx
    · exact List.mem_append_right _ (List.mem_cons_of_mem _ hx)
  · rw [hl, ho]; exact h5
  · rw [ho]; exact h6
  · rw [ho]; exact h7
  · rw [ho]; exact h8

theorem Inv_fresh : Inv fresh_server := by
  constructor <;> simp [fresh_server, live, live_of]

/-! ## What the registry operations do -/

theorem entry_group_free_eq {s : Server} {i : Nat} {c : Client} {g : EntryGroupInfo}
    (hd : deref s.clients i = some (c, g)) :
    entry_group_free s i =
      { s with
        trace := s.trace ++ [Call.avahi_entry_group_free g.entry_group,
                             Call.dbus_connection_unregister_object_path g.path]
        objects := unregister_object_path s.objects g.path
        clients := s.clients.map (fun c =>
          { c with entry_groups := c.entry_groups.filter (fun x => decide (x.entry_group ≠ i)) }) } := by
  simp [entry_group_free, hd]

theorem Inv_entry_group_free {s : Server} (hI : Inv s) (i : Nat) : Inv (entry_group_free s i) := by
  cases hd : deref s.clients i with
  | none => simpa [entry_group_free, hd] using hI
  | some cg =>
    obtain ⟨c, g⟩ := cg
    rw [entry_group_free_eq hd]
    exact Inv_free hI hd rfl rfl rfl

theorem Inv_client_free_loop (fuel : Nat) : ∀ (s : Server) (k : Nat), Inv s →
    Inv (client_free_loop fuel s k) := by
  induction fuel with
  | zero => intro s k hI; simpa [client_free_loop] using hI
  | succ f ih =>
    intro s k hI
    simp only [client_free_loop]
    split
    · exact hI
    · split
      · exact hI
      · exact ih _ _ (Inv_entry_group_free hI _)

theorem deref_unique {s : Server} (hI : Inv s) {g : EntryGroupInfo} (hg : g ∈ live s) :
    ∃ c, deref s.clients g.entry_group = some (c, g) := by
  obtain ⟨c0, g0, h0⟩ := deref_of_mem hg
  obtain ⟨h1, h2, h3⟩ := deref_some h0
  have : g0 = g := serial_unique hI.serials (mem_live_of.mpr ⟨c0, h1, h2⟩) hg h3
  exact ⟨c0, by rw [h0, this]⟩

theorem filter_serial_self {l : List EntryGroupInfo} {i : Nat}
    (h : ∀ x ∈ l, x.entry_group ≠ i) :
    l.filter (fun x => decide (x.entry_group ≠ i)) = l := by
  rw [List.filter_eq_self]
  intro x hx
  simpa using h x hx

theorem map_filter_serial_self {cs : List Client} {i : Nat}
    (h : ∀ x ∈ live_of cs, x.entry_group ≠ i) :
    cs.map (fun c =>
      { c with entry_groups := c.entry_groups.filter (fun x => decide (x.entry_group ≠ i)) }) =
      cs := by
  induction cs with
  | nil => rfl
  | cons c rest ih =>
    rw [live_of_cons] at h
    rw [List.map_cons, ih (fun x hx => h x (List.mem_append_right _ hx)),
      filter_serial_self (fun x hx => h x (List.mem_append_left _ hx))]

/-- Freeing the head record of the client at position `pre.length`. -/
theorem free_head_clients {s : Server} (hI : Inv s) {pre post : List Client} {c : Client}
    {g : EntryGroupInfo} {rest : List EntryGroupInfo}
    (hs : s.clients = pre ++ c :: post) (hc : c.entry_groups = g :: rest) :
    s.clients.map (fun c =>
      { c with entry_groups :=
          c.entry_groups.filter (fun x => decide (x.entry_group ≠ g.entry_group)) }) =
      pre ++ { c with entry_groups := rest } :: post := by
  have hn := hI.serials
  simp only [live, hs, live_of_append, live_of_cons, hc, List.map_append, List.map_cons,
    List.cons_append] at hn
  have h1 := (List.nodup_append.mp hn).2.2
  have h2 := (List.nodup_append.mp hn).2.1
  have h3 := (List.nodup_cons.mp h2).1
  rw [hs, List.map_append, List.map_cons]
  congr 1
  · apply map_filter_serial_self
    intro x hx he
    exact h1 (List.mem_map_of_mem (fun g => g.entry_group) hx)
      (by rw [he]; exact List.mem_cons_self _ _)
  · congr 1
    · rw [hc, List.filter_cons]
      simp only [ne_eq, not_true_eq_false, decide_False, Bool.false_eq_true, if_false]
      rw [show (fun x : EntryGroupInfo => decide (¬ x.entry_group = g.entry_group)) =
        (fun x => decide (x.entry_group ≠ g.entry_group)) from rfl]
      rw [filter_serial_self]
      intro x hx he
      apply h3
      rw [← he]
      exact List.mem_append_left _ (List.mem_map_of_mem _ hx)
    · apply map_filter_serial_self
      intro x hx he
      apply h3
      rw [← he]
      exact List.mem_append_right _ (List.mem_map_of_mem _ hx)

theorem client_eta_nil {c : Client} (h : c.entry_groups = []) :
    ({ c with entry_groups := [] } : Client) = c := by
  cases c; simp_all

theorem client_free_loop_spec (fuel : Nat) : ∀ (s : Server) (pre post : List Client) (c : Client),
    Inv s → s.clients = pre ++ c :: post → c.entry_groups.length ≤ fuel →
    client_free_loop fuel s pre.length =
      { s with
        trace := s.trace ++ teardown_calls c.entry_groups
        objects := s.objects.filter
          (fun o => decide (o.1 ∉ c.entry_groups.map (fun g => g.path)))
        clients := pre ++ { c with entry_groups := [] } :: post } := by
  induction fuel with
  | zero =>
    intro s pre post c _ hs hlen
    have hnil : c.entry_groups = [] := List.length_eq_zero.mp (Nat.le_zero.mp hlen)
    obtain ⟨objs, cs, cur, tr, al⟩ := s
    simp only at hs
    simp [client_free_loop, hnil, teardown_calls, client_eta_nil hnil, hs]
  | succ f ih =>
    intro s pre post c hI hs hlen
    simp only [client_free_loop, hs, getElem?_append_cons]
    cases hc : c.entry_groups with
    | nil =>
      obtain ⟨objs, cs, cur, tr, al⟩ := s
      simp only at hs
      simp [teardown_calls, client_eta_nil hc, hs]
    | cons g rest =>
      simp only
      have hgl : g ∈ live s := by
        simp only [live, hs, live_of_append, live_of_cons, hc]
        simp
      obtain ⟨c0, hd⟩ := deref_unique hI hgl
      have hI1 := Inv_entry_group_free hI g.entry_group
      have hcl := free_head_clients hI hs hc
      rw [entry_group_free_eq hd] at hI1 ⊢
      rw [hcl] at hI1 ⊢
      rw [hc] at hlen
      rw [ih _ pre post { c with entry_groups := rest } hI1 rfl
        (by simpa using Nat.le_of_succ_le_succ hlen)]
      simp only [Server.mk.injEq, and_true, true_and]
      refine ⟨?_, ?_⟩
      · simp only [unregister_object_path, List.filter_filter]
        apply List.filter_congr
        intro o _
        simp only [List.map_cons, List.mem_cons, not_or, ne_eq, Bool.decide_and, decide_not,
          List.mem_map, not_exists, not_and]
        exact Bool.and_comm _ _
      · simp [teardown_calls, List.append_assoc]

theorem client_free_spec {s : Server} {pre post : List Client} {c : Client}
    (hI : Inv s) (hs : s.clients = pre ++ c :: post) :
    client_free s pre.length =
      { s with
        trace := s.trace ++ teardown_calls c.entry_groups
        objects := s.objects.filter
          (fun o => decide (o.1 ∉ c.entry_groups.map (fun g => g.path)))
        clients := pre ++ post } := by
  simp only [client_free, hs, getElem?_append_cons]
  rw [client_free_loop_spec _ s pre post c hI hs (Nat.le_refl _)]
  simp only [Server.mk.injEq, and_true, true_and]
  have := eraseIdx_append_cons pre post { c with entry_groups := [] }
  exact this

theorem Inv_client_free {s : Server} (hI : Inv s) (k : Nat) : Inv (client_free s k) := by
  cases hk : s.clients[k]? with
  | none => simpa [client_free, hk] using hI
  | some c =>
    obtain ⟨pre, post, hs, rfl⟩ := getElem?_split hk
    have hloop := Inv_client_free_loop c.entry_groups.length s pre.length hI
    rw [client_free_loop_spec _ s pre post c hI hs (Nat.le_refl _)] at hloop
    rw [client_free_spec hI hs]
    exact Inv_erase hloop (c := { c with entry_groups := [] }) rfl rfl rfl rfl rfl

/-! ## EntryGroupNew -/

/-- The record created for a client with numeric id `cid` and counter `n`. -/
theorem new_existing_eq {s : Server} {m : DBusMessage} {pre post : List Client} {c : Client}
    (hs : s.clients = pre ++ c :: post) (hc : c.name = m.sender)
    (hpre : ∀ x ∈ pre, x.name ≠ m.sender) :
    server_EntryGroupNew s m =
      ({ s with
         clients := pre ++
           { c with
             current_id := (c.current_id + 1) % GUINT_MOD
             entry_groups :=
               { id := (c.current_id + 1) % GUINT_MOD, entry_group := s.allocs,
                 path := entry_group_path c.id ((c.current_id + 1) % GUINT_MOD) }
                 :: c.entry_groups } :: post
         objects := register_object_path s.objects
           (entry_group_path c.id ((c.current_id + 1) % GUINT_MOD)) (Handler.entry_group s.allocs)
         allocs := s.allocs + 1
         trace := s.trace ++
           [Call.avahi_entry_group_new s.allocs,
            Call.dbus_connection_register_object_path
              (entry_group_path c.id ((c.current_id + 1) % GUINT_MOD))
              (Handler.entry_group s.allocs),
            Call.dbus_connection_send (DBusOut.method_return m
              [DBusArg.object_path (entry_group_path c.id ((c.current_id + 1) % GUINT_MOD))])] },
       DBusHandlerResult.HANDLED) := by
  have hf := client_find_append post hc hpre
  simp only [server_EntryGroupNew, client_get, hs, hf, getElem?_append_cons,
    client_update_append]

theorem new_fresh_eq {s : Server} {m : DBusMessage}
    (hf : client_find s.clients m.sender = none) :
    server_EntryGroupNew s m =
      ({ s with
         clients :=
           { id := s.current_id, name := m.sender, current_id := 1,
             entry_groups :=
               [{ id := 1, entry_group := s.allocs, path := entry_group_path s.current_id 1 }] }
             :: s.clients
         current_id := (s.current_id + 1) % GUINT_MOD
         objects := register_object_path s.objects
           (entry_group_path s.current_id 1) (Handler.entry_group s.allocs)
         allocs := s.allocs + 1
         trace := s.trace ++
           [Call.avahi_entry_group_new s.allocs,
            Call.dbus_connection_register_object_path
              (entry_group_path s.current_id 1) (Handler.entry_group s.allocs),
            Call.dbus_connection_send (DBusOut.method_return m
              [DBusArg.object_path (entry_group_path s.current_id 1)])] },
       DBusHandlerResult.HANDLED) := by
  have h1 : (0 + 1) % GUINT_MOD = 1 := by decide
  simp [server_EntryGroupNew, client_get, hf, client_update, h1]

theorem Inv_server_EntryGroupNew {s : Server} (hI : Inv s) (m : DBusMessage) :
    Inv (server_EntryGroupNew s m).1 := by
  cases hf : client_find s.clients m.sender with
  | none =>
    rw [new_fresh_eq hf]
    have h0 : Inv { s with
        clients := { id := s.current_id, name := m.sender, current_id := 0, entry_groups := [] }
          :: s.clients } :=
      Inv_add_client hI _ (client_find_none.mp hf) rfl rfl rfl rfl
    exact @Inv_add_group _ _ h0 [] s.clients
      { id := s.current_id, name := m.sender, current_id := 0, entry_groups := [] } _
      { id := 1, entry_group := s.allocs, path := entry_group_path s.current_id 1 }
      rfl rfl rfl rfl rfl rfl rfl rfl rfl
  | some k =>
    obtain ⟨pre, c, post, hs, _, hc, hpre⟩ := client_find_some hf
    rw [new_existing_eq hs hc hpre]
    exact Inv_add_group hI hs rfl rfl rfl rfl rfl rfl rfl rfl

theorem Inv_msg_server_impl (E : AvahiCore) {s : Server} (hI : Inv s) (m : DBusMessage) :
    Inv (msg_server_impl E s m).1 := by
  unfold msg_server_impl
  split_ifs
  all_goals first
    | exact hI
    | exact Inv_server_EntryGroupNew hI m
    | exact Inv_quiet hI rfl rfl rfl

theorem Inv_msg_entry_group_impl (E : AvahiCore) {s : Server} (hI : Inv s) (m : DBusMessage)
    (i : Nat) : Inv (msg_entry_group_impl E s m i).1 := by
  unfold msg_entry_group_impl
  split
  · exact hI
  · split_ifs
    all_goals first
      | exact hI
      | exact Inv_quiet hI rfl rfl rfl
      | exact Inv_quiet (Inv_entry_group_free hI i) rfl rfl rfl
      | skip
    · unfold entry_group_AddService
      split
      · exact hI
      · simp only
        split_ifs
        all_goals first
          | exact hI
          | exact Inv_quiet hI rfl rfl rfl
    · unfold entry_group_AddAddress
      split
      · exact hI
      · split_ifs
        · exact hI
        · split
          · exact Inv_quiet hI rfl rfl rfl
          · simp only
            split_ifs
            all_goals exact Inv_quiet hI rfl rfl rfl

theorem client_get_false (s : Server) (name : String) :
    client_get s name false = (s, client_find s.clients name) := by
  unfold client_get
  cases client_find s.clients name <;> simp

theorem Inv_msg_signal_filter_impl {s : Server} (hI : Inv s) (m : DBusMessage) :
    Inv (msg_signal_filter_impl s m).1 := by
  unfold msg_signal_filter_impl
  split_ifs
  · exact Inv_quiet hI rfl rfl rfl
  · split <;> exact hI
  · split
    · exact hI
    · split_ifs
      · simp only [client_get_false]
        split
        · rename_i h; simp only [Prod.mk.injEq] at h; rw [← h.1]; exact Inv_client_free hI _
        · rename_i h; simp only [Prod.mk.injEq] at h; rw [← h.1]; exact hI
      · exact hI
  · exact hI

theorem Inv_dispatch (E : AvahiCore) {s : Server} (hI : Inv s) (m : DBusMessage) :
    Inv (dispatch E s m) := by
  unfold dispatch
  have h1 := Inv_msg_signal_filter_impl hI m
  split
  · rename_i s1 he; rw [he] at h1; exact h1
  · rename_i s1 he
    rw [he] at h1
    split
    · exact h1
    · exact Inv_msg_server_impl E h1 m
    · exact Inv_msg_entry_group_impl E h1 m _

theorem run_append (E : AvahiCore) (g : Option Server) (a b : List Event) :
    run E g (a ++ b) = run E (run E g a) b := by
  simp [run, List.foldl_append]

theorem run_none (E : AvahiCore) (evs : List Event) : run E none evs = none := by
  induction evs with
  | nil => rfl
  | cons e rest ih => simpa [run, step] using ih

theorem callback_quiet (s : Server) (state : Int) (i : Nat) :
    (entry_group_callback s state i).clients = s.clients ∧
      (entry_group_callback s state i).objects = s.objects ∧
      (entry_group_callback s state i).current_id = s.current_id ∧
      (entry_group_callback s state i).allocs = s.allocs := by
  unfold entry_group_callback
  split <;> simp

theorem Inv_step (E : AvahiCore) {s t : Server} (hI : Inv s) (e : Event)
    (h : step E (some s) e = some t) : Inv t := by
  cases e with
  | message m =>
    simp only [step, Option.some.injEq] at h
    rw [← h]; exact Inv_dispatch E hI m
  | entry_group_state state i =>
    simp only [step, Option.some.injEq] at h
    obtain ⟨h1, h2, _, h4⟩ := callback_quiet s state i
    rw [← h]; exact Inv_quiet hI h1 h2 h4
  | server_state state =>
    simp only [step, dbus_protocol_server_state_changed, Option.some.injEq] at h
    rw [← h]; exact Inv_quiet hI rfl rfl rfl
  | shutdown => simp [step, dbus_protocol_shutdown] at h

theorem Inv_run (E : AvahiCore) (evs : List Event) : ∀ {s t : Server}, Inv s →
    run E (some s) evs = some t → Inv t := by
  induction evs with
  | nil => intro s t hI h; simp only [run, List.foldl_nil, Option.some.injEq] at h; rw [← h]; exact hI
  | cons e rest ih =>
    intro s t hI h
    simp only [run, List.foldl_cons] at h
    cases hs : step E (some s) e with
    | none =>
      rw [hs] at h
      have := run_none E rest
      simp only [run] at this
      rw [this] at h
      exact absurd h (by simp)
    | some s1 =>
      rw [hs] at h
      exact ih (Inv_step E hI e hs) h

/-! ## While no counter has wrapped -/

theorem Unwrapped_mono {N N1 : Nat} {s : Server} (hU : Unwrapped N s) (h : N ≤ N1) :
    Unwrapped N1 s := by
  obtain ⟨⟨K, hK, hK1, hK2⟩, u2, u3, u4, u5⟩ := hU
  refine ⟨⟨K, by omega, hK1, hK2⟩, u2, ?_, u4, u5⟩
  intro c hc
  obtain ⟨M, hM, hM1, hM2⟩ := u3 c hc
  exact ⟨M, by omega, hM1, hM2⟩

theorem client_of_id {cs : List Client} (hn : (cs.map (fun c => c.id)).Nodup) {a b : Client}
    (ha : a ∈ cs) (hb : b ∈ cs) (h : a.id = b.id) : a = b :=
  List.inj_on_of_nodup_map hn ha hb h

theorem paths_nodup_of {cs : List Client}
    (hwf : ∀ c ∈ cs, ∀ g ∈ c.entry_groups, g.path = entry_group_path c.id g.id)
    (hids : (cs.map (fun c => c.id)).Nodup)
    (hgids : ∀ c ∈ cs, (c.entry_groups.map (fun g => g.id)).Nodup) :
    ((live_of cs).map (fun g => g.path)).Nodup := by
  induction cs with
  | nil => simp [live_of]
  | cons c rest ih =>
    rw [live_of_cons, List.map_append, List.nodup_append]
    simp only [List.map_cons, List.nodup_cons, List.mem_map, not_exists, not_and] at hids
    refine ⟨?_, ?_, ?_⟩
    · have hg := hgids c (List.mem_cons_self _ _)
      refine List.Nodup.map_on ?_ hg.of_map
      intro x hx y hy hxy
      rw [hwf c (List.mem_cons_self _ _) x hx, hwf c (List.mem_cons_self _ _) y hy] at hxy
      exact List.inj_on_of_nodup_map hg hx hy (entry_group_path_inj hxy).2
    · exact ih (fun c0 h0 => hwf c0 (List.mem_cons_of_mem _ h0)) hids.2
        (fun c0 h0 => hgids c0 (List.mem_cons_of_mem _ h0))
    · intro p hp1 hp2
      obtain ⟨x, hx, rfl⟩ := List.mem_map.mp hp1
      obtain ⟨y, hy, hxy⟩ := List.mem_map.mp hp2
      obtain ⟨c0, hc0, hy0⟩ := mem_live_of.mp hy
      rw [hwf c (List.mem_cons_self _ _) x hx, hwf c0 (List.mem_cons_of_mem _ hc0) y hy0] at hxy
      exact hids.1 c0 hc0 (entry_group_path_inj hxy).1

theorem paths_nodup {N : Nat} {s : Server} (hI : Inv s) (hU : Unwrapped N s) :
    ((live s).map (fun g => g.path)).Nodup :=
  paths_nodup_of hI.paths_wf hU.client_ids hU.group_ids

theorem Unwrapped_quiet {N : Nat} {s t : Server} (hU : Unwrapped N s)
    (hc : t.clients = s.clients) (ho : t.objects = s.objects)
    (hi : t.current_id = s.current_id) : Unwrapped N t := by
  obtain ⟨u1, u2, u3, u4, u5⟩ := hU
  constructor
  · rw [hc, hi]; exact u1
  · rw [hc]; exact u2
  · rw [hc]; exact u3
  · rw [hc]; exact u4
  · simp only [live, hc, ho]; exact u5

theorem Unwrapped_free {N : Nat} {s t : Server} (hI : Inv s) (hU : Unwrapped N s)
    {i : Nat} {c : Client} {g : EntryGroupInfo}
    (hd : deref s.clients i = some (c, g))
    (hc : t.clients = s.clients.map (fun c =>
      { c with entry_groups := c.entry_groups.filter (fun x => decide (x.entry_group ≠ i)) }))
    (ho : t.objects = unregister_object_path s.objects g.path)
    (hi : t.current_id = s.current_id) : Unwrapped N t := by
  have hpn := paths_nodup hI hU
  obtain ⟨⟨K, hK, hK1, hK2⟩, u2, u3, u4, u5⟩ := hU
  obtain ⟨hcm, hgm, hgi⟩ := deref_some hd
  have hgl : g ∈ live s := mem_live_of.mpr ⟨c, hcm, hgm⟩
  have hl : live t = (live s).filter (fun x => decide (x.entry_group ≠ i)) := by
    simp only [live, hc]; exact live_of_map_filter _ _
  constructor
  · refine ⟨K, hK, by rw [hi]; exact hK1, ?_⟩
    rw [hc]
    intro x hx
    obtain ⟨x0, hx0, rfl⟩ := List.mem_map.mp hx
    exact hK2 x0 hx0
  · rw [hc, List.map_map]; exact u2
  · rw [hc]
    intro x hx
    obtain ⟨x0, hx0, rfl⟩ := List.mem_map.mp hx
    obtain ⟨M, hM, hM1, hM2⟩ := u3 x0 hx0
    exact ⟨M, hM, hM1, fun y hy => hM2 y (List.mem_filter.mp hy).1⟩
  · rw [hc]
    intro x hx
    obtain ⟨x0, hx0, rfl⟩ := List.mem_map.mp hx
    exact (u4 x0 hx0).sublist ((List.filter_sublist _).map _)
  · intro y hy
    rw [hl, List.mem_filter] at hy
    rw [ho]
    refine mem_unregister_object_path.mpr ⟨u5 y hy.1, ?_⟩
    intro hp
    have hyg : y = g := List.inj_on_of_nodup_map hpn hy.1 hgl hp
    have := hy.2
    simp only [ne_eq, decide_not, Bool.not_eq_eq_eq_not, Bool.not_true,
      decide_eq_false_iff_not] at this
    exact this (by rw [hyg, hgi])

theorem Unwrapped_entry_group_free {N : Nat} {s : Server} (hI : Inv s) (hU : Unwrapped N s)
    (i : Nat) : Unwrapped N (entry_group_free s i) := by
  cases hd : deref s.clients i with
  | none => simpa [entry_group_free, hd] using hU
  | some cg =>
    obtain ⟨c, g⟩ := cg
    rw [entry_group_free_eq hd]
    exact Unwrapped_free hI hU hd rfl rfl rfl

theorem Unwrapped_client_free {N : Nat} {s : Server} (hI : Inv s) (hU : Unwrapped N s)
    (k : Nat) : Unwrapped N (client_free s k) := by
  cases hk : s.clients[k]? with
  | none => simpa [client_free, hk] using hU
  | some c =>
    obtain ⟨pre, post, hs, rfl⟩ := getElem?_split hk
    rw [client_free_spec hI hs]
    have hpn := paths_nodup hI hU
    obtain ⟨⟨K, hK, hK1, hK2⟩, u2, u3, u4, u5⟩ := hU
    have hsub : ∀ x, x ∈ pre ++ post → x ∈ s.clients := by
      intro x hx
      rw [hs]
      rcases List.mem_append.mp hx with hx | hx
      · exact List.mem_append_left _ hx
      · exact List.mem_append_right _ (List.mem_cons_of_mem _ hx)
    constructor
    · exact ⟨K, hK, hK1, fun x hx => hK2 x (hsub x hx)⟩
    · rw [hs] at u2
      simp only [List.map_append, List.map_cons] at u2 ⊢
      exact u2.sublist (List.Sublist.append_left (List.sublist_cons_self _ _) _)
    · exact fun x hx => u3 x (hsub x hx)
    · exact fun x hx => u4 x (hsub x hx)
    · intro y hy
      simp only [live, live_of_append] at hy
      simp only [live, hs, live_of_append, live_of_cons, List.map_append] at hpn u5
      have hy1 : y ∈ live_of pre ++ (c.entry_groups ++ live_of post) := by
        rcases List.mem_append.mp hy with h | h
        · exact List.mem_append_left _ h
        · exact List.mem_append_right _ (List.mem_append_right _ h)
      simp only [List.mem_filter, decide_eq_true_eq]
      refine ⟨u5 y hy1, ?_⟩
      intro hp
      obtain ⟨z, hz, hzy⟩ := List.mem_map.mp hp
      rcases List.mem_append.mp hy with h | h
      · exact (List.nodup_append.mp hpn).2.2 (List.mem_map_of_mem _ h)
          (List.mem_append_left _ (by rw [← hzy]; exact List.mem_map_of_mem _ hz))
      · exact (List.nodup_append.mp (List.nodup_append.mp hpn).2.1).2.2
          (by rw [← hzy]; exact List.mem_map_of_mem _ hz) (List.mem_map_of_mem _ h)

theorem Unwrapped_new_fresh {N : Nat} {s : Server} {m : DBusMessage} (hI : Inv s)
    (hU : Unwrapped N s) (hN : N < GUINT_MOD)
    (hf : client_find s.clients m.sender = none) :
    Unwrapped (N + 1) (server_EntryGroupNew s m).1 := by
  have hI1 := Inv_server_EntryGroupNew hI m
  rw [new_fresh_eq hf] at hI1 ⊢
  obtain ⟨⟨K, hK, hK1, hK2⟩, u2, u3, u4, u5⟩ := hU
  have hKW : K % GUINT_MOD = K := Nat.mod_eq_of_lt (by omega)
  rw [hKW] at hK1
  have hfresh : object_lookup s.objects (entry_group_path s.current_id 1) = none := by
    cases hl : object_lookup s.objects (entry_group_path s.current_id 1) with
    | none => rfl
    | some h =>
      exfalso
      have hm := object_lookup_mem hl
      cases h with
      | server => exact entry_group_path_ne_server _ _ (hI.server_only _ hm)
      | entry_group j =>
        obtain ⟨g0, hg0, _, hg2⟩ := hI.objects_sound _ _ hm
        obtain ⟨c0, hc0, hgc0⟩ := mem_live_of.mp hg0
        rw [hI.paths_wf c0 hc0 g0 hgc0] at hg2
        have := (entry_group_path_inj hg2).1
        have := hK2 c0 hc0
        omega
  constructor
  · refine ⟨K + 1, by omega, ?_, ?_⟩
    · simp only [hK1]
    · intro c hc
      rcases List.mem_cons.mp hc with rfl | hc
      · simp only; omega
      · have := hK2 c hc; omega
  · simp only [List.map_cons, List.nodup_cons, List.mem_map, not_exists, not_and]
    refine ⟨fun c hc he => ?_, u2⟩
    have := hK2 c hc
    omega
  · intro c hc
    rcases List.mem_cons.mp hc with rfl | hc
    · refine ⟨1, by omega, by simp [GUINT_MOD], ?_⟩
      intro g hg
      simp only [List.mem_singleton] at hg
      exact ⟨1, by omega, by omega, by rw [hg]; simp [GUINT_MOD]⟩
    · obtain ⟨M, hM, hM1, hM2⟩ := u3 c hc
      exact ⟨M, by omega, hM1, hM2⟩
  · intro c hc
    rcases List.mem_cons.mp hc with rfl | hc
    · simp
    · exact u4 c hc
  · intro y hy
    simp only [live, live_of_cons, List.singleton_append, List.mem_cons] at hy
    simp only [register_object_path, hfresh]
    rcases hy with rfl | hy
    · exact List.mem_cons_self _ _
    · exact List.mem_cons_of_mem _ (u5 y hy)

theorem Unwrapped_add_group {N : Nat} {s t : Server} (hI : Inv s)
    (hU : Unwrapped N s) (hN : N < GUINT_MOD)
    {pre post : List Client} {c c1 : Client} {g : EntryGroupInfo}
    (hs : s.clients = pre ++ c :: post) (hc : t.clients = pre ++ c1 :: post)
    (hid : c1.id = c.id) (hcur : c1.current_id = (c.current_id + 1) % GUINT_MOD)
    (hgs : c1.entry_groups = g :: c.entry_groups)
    (hgid : g.id = (c.current_id + 1) % GUINT_MOD)
    (hpath : g.path = entry_group_path c.id g.id) (hser : g.entry_group = s.allocs)
    (ho : t.objects = register_object_path s.objects g.path (Handler.entry_group s.allocs))
    (hi : t.current_id = s.current_id) : Unwrapped (N + 1) t := by
  obtain ⟨⟨K, hK, hK1, hK2⟩, u2, u3, u4, u5⟩ := hU
  have hcm : c ∈ s.clients := by rw [hs]; simp
  obtain ⟨M, hM, hM1, hM2⟩ := u3 c hcm
  have hnew : ∀ g0 ∈ c.entry_groups, g0.id ≠ g.id := by
    intro g0 hg he
    obtain ⟨j, hj1, hj2, hj3⟩ := hM2 g0 hg
    rw [hj3, hgid, hM1] at he
    simp only [GUINT_MOD] at he hN
    omega
  have hfresh : object_lookup s.objects g.path = none := by
    cases hl : object_lookup s.objects g.path with
    | none => rfl
    | some h =>
      exfalso
      have hm := object_lookup_mem hl
      cases h with
      | server => rw [hpath] at hm; exact entry_group_path_ne_server _ _ (hI.server_only _ hm)
      | entry_group j =>
        obtain ⟨g0, hg0, _, hg2⟩ := hI.objects_sound _ _ hm
        obtain ⟨c0, hc0, hgc0⟩ := mem_live_of.mp hg0
        rw [hI.paths_wf c0 hc0 g0 hgc0, hpath] at hg2
        obtain ⟨h1, h2⟩ := entry_group_path_inj hg2
        have : c0 = c := client_of_id u2 hc0 hcm h1
        rw [this] at hgc0
        exact hnew g0 hgc0 h2
  have hmem : ∀ x, x ∈ t.clients → x ∈ s.clients ∨ x = c1 := by
    intro x hx
    rw [hs]
    rw [hc] at hx
    rcases List.mem_append.mp hx with h | h
    · exact Or.inl (List.mem_append_left _ h)
    · rcases List.mem_cons.mp h with h | h
      · exact Or.inr h
      · exact Or.inl (List.mem_append_right _ (List.mem_cons_of_mem _ h))
  constructor
  · refine ⟨K, by omega, by rw [hi]; exact hK1, ?_⟩
    intro x hx
    rcases hmem x hx with h | rfl
    · exact hK2 x h
    · rw [hid]; exact hK2 c hcm
  · rw [hs] at u2
    rw [hc]
    simpa [hid] using u2
  · intro x hx
    rcases hmem x hx with h | rfl
    · obtain ⟨M0, hM0, hM01, hM02⟩ := u3 x h
      exact ⟨M0, by omega, hM01, hM02⟩
    · refine ⟨M + 1, by omega, ?_, ?_⟩
      · rw [hcur, hM1]; simp only [GUINT_MOD]; omega
      · intro g0 hg
        rw [hgs] at hg
        rcases List.mem_cons.mp hg with rfl | hg
        · exact ⟨M + 1, by omega, by omega, by rw [hgid, hM1]; simp only [GUINT_MOD]; omega⟩
        · obtain ⟨j, hj1, hj2, hj3⟩ := hM2 g0 hg
          exact ⟨j, hj1, by omega, hj3⟩
  · intro x hx
    rcases hmem x hx with h | rfl
    · exact u4 x h
    · rw [hgs]
      simp only [List.map_cons, List.nodup_cons, List.mem_map, not_exists, not_and]
      exact ⟨fun g0 hg => hnew g0 hg, u4 c hcm⟩
  · intro y hy
    have hp := live_add_group_perm pre post c c1 g hgs
    simp only [live, hc] at hy
    have hy1 := hp.subset hy
    rw [ho]
    simp only [register_object_path, hfresh]
    rcases List.mem_cons.mp hy1 with rfl | hy1
    · rw [hser]; exact List.mem_cons_self _ _
    · rw [← hs] at hy1
      exact List.mem_cons_of_mem _ (u5 y hy1)

theorem Unwrapped_server_EntryGroupNew {N : Nat} {s : Server} (hI : Inv s)
    (hU : Unwrapped N s) (hN : N < GUINT_MOD) (m : DBusMessage) :
    Unwrapped (N + 1) (server_EntryGroupNew s m).1 := by
  cases hf : client_find s.clients m.sender with
  | none => exact Unwrapped_new_fresh hI hU hN hf
  | some k =>
    obtain ⟨pre, c, post, hs, _, hc, hpre⟩ := client_find_some hf
    rw [new_existing_eq hs hc hpre]
    exact Unwrapped_add_group hI hU hN hs rfl rfl rfl rfl rfl rfl rfl rfl rfl

theorem Unwrapped_msg_signal_filter_impl {N : Nat} {s : Server} (hI : Inv s)
    (hU : Unwrapped N s) (m : DBusMessage) : Unwrapped N (msg_signal_filter_impl s m).1 := by
  unfold msg_signal_filter_impl
  split_ifs
  · exact Unwrapped_quiet hU rfl rfl rfl
  · split <;> exact hU
  · split
    · exact hU
    · split_ifs
      · simp only [client_get_false]
        split
        · rename_i h; simp only [Prod.mk.injEq] at h; rw [← h.1]
          exact Unwrapped_client_free hI hU _
        · rename_i h; simp only [Prod.mk.injEq] at h; rw [← h.1]; exact hU
      · exact hU
  · exact hU

theorem Unwrapped_msg_entry_group_impl (E : AvahiCore) {N : Nat} {s : Server} (hI : Inv s)
    (hU : Unwrapped N s) (m : DBusMessage) (i : Nat) :
    Unwrapped N (msg_entry_group_impl E s m i).1 := by
  unfold msg_entry_group_impl
  split
  · exact hU
  · split_ifs
    all_goals first
      | exact hU
      | exact Unwrapped_quiet hU rfl rfl rfl
      | exact Unwrapped_quiet (Unwrapped_entry_group_free hI hU i) rfl rfl rfl
      | skip
    · unfold entry_group_AddService
      split
      · exact hU
      · simp only
        split_ifs
        all_goals first
          | exact hU
          | exact Unwrapped_quiet hU rfl rfl rfl
    · unfold entry_group_AddAddress
      split
      · exact hU
      · split_ifs
        · exact hU
        · split
          · exact Unwrapped_quiet hU rfl rfl rfl
          · simp only
            split_ifs
            all_goals exact Unwrapped_quiet hU rfl rfl rfl

theorem Unwrapped_msg_server_impl_new (E : AvahiCore) {N : Nat} {s : Server} (hI : Inv s)
    (hU : Unwrapped N s) (m : DBusMessage) (hN : N < GUINT_MOD) :
    Unwrapped (N + 1) (msg_server_impl E s m).1 := by
  have hmono : Unwrapped (N + 1) s := Unwrapped_mono hU (by omega)
  unfold msg_server_impl
  split_ifs
  all_goals first
    | exact hmono
    | exact Unwrapped_quiet hmono rfl rfl rfl
    | exact Unwrapped_server_EntryGroupNew hI hU hN m

theorem Unwrapped_msg_server_impl_other (E : AvahiCore) {N : Nat} {s : Server}
    (hU : Unwrapped N s) (m : DBusMessage)
    (hn : dbus_message_is_method_call m AVAHI_DBUS_INTERFACE_SERVER "EntryGroupNew" = false) :
    Unwrapped N (msg_server_impl E s m).1 := by
  unfold msg_server_impl
  simp only [hn, Bool.false_eq_true, if_false]
  split_ifs
  all_goals first
    | exact hU
    | exact Unwrapped_quiet hU rfl rfl rfl

theorem Unwrapped_dispatch_new (E : AvahiCore) {N : Nat} {s : Server} (hI : Inv s)
    (hU : Unwrapped N s) (m : DBusMessage) (hN : N < GUINT_MOD) :
    Unwrapped (N + 1) (dispatch E s m) := by
  unfold dispatch
  have h1 := Inv_msg_signal_filter_impl hI m
  have h2 := Unwrapped_msg_signal_filter_impl hI hU m
  split
  · rename_i s1 he; rw [he] at h2; exact Unwrapped_mono h2 (by omega)
  · rename_i s1 he
    rw [he] at h1 h2
    split
    · exact Unwrapped_mono h2 (by omega)
    · exact Unwrapped_msg_server_impl_new E h1 h2 m hN
    · exact Unwrapped_mono (Unwrapped_msg_entry_group_impl E h1 h2 m _) (by omega)

theorem Unwrapped_dispatch_other (E : AvahiCore) {N : Nat} {s : Server} (hI : Inv s)
    (hU : Unwrapped N s) (m : DBusMessage)
    (hn : dbus_message_is_method_call m AVAHI_DBUS_INTERFACE_SERVER "EntryGroupNew" = false) :
    Unwrapped N (dispatch E s m) := by
  unfold dispatch
  have h1 := Inv_msg_signal_filter_impl hI m
  have h2 := Unwrapped_msg_signal_filter_impl hI hU m
  split
  · rename_i s1 he; rw [he] at h2; exact h2
  · rename_i s1 he
    rw [he] at h1 h2
    split
    · exact h2
    · exact Unwrapped_msg_server_impl_other E h2 m hn
    · exact Unwrapped_msg_entry_group_impl E h1 h2 m _

theorem Unwrapped_fresh : Unwrapped 0 fresh_server := by
  constructor
  · exact ⟨0, by omega, by simp [fresh_server, GUINT_MOD], by simp [fresh_server]⟩
  all_goals simp [fresh_server, live, live_of]

theorem Unwrapped_run (E : AvahiCore) (evs : List Event) : ∀ {N : Nat} {s t : Server}, Inv s →
    Unwrapped N s → N + evs.countP is_new_request ≤ GUINT_MOD →
    run E (some s) evs = some t → Unwrapped (N + evs.countP is_new_request) t := by
  induction evs with
  | nil =>
    intro N s t _ hU _ h
    simp only [run, List.foldl_nil, Option.some.injEq] at h
    rw [← h]; simpa using hU
  | cons e rest ih =>
    intro N s t hI hU hN h
    simp only [run, List.foldl_cons] at h
    cases e with
    | shutdown =>
      have : step E (some s) Event.shutdown = none := by simp [step, dbus_protocol_shutdown]
      rw [this] at h
      have := run_none E rest
      simp only [run] at this
      rw [this] at h
      exact absurd h (by simp)
    | entry_group_state state i =>
      have hs : step E (some s) (Event.entry_group_state state i) =
          some (entry_group_callback s state i) := rfl
      rw [hs] at h
      obtain ⟨h1, h2, h3, _⟩ := callback_quiet s state i
      have hI1 := Inv_step E hI _ hs
      rw [List.countP_cons] at hN ⊢
      simp only [is_new_request, Bool.false_eq_true, if_false, Nat.add_zero] at hN ⊢
      exact ih hI1 (Unwrapped_quiet hU h1 h2 h3) hN h
    | server_state state =>
      have hs : step E (some s) (Event.server_state state) =
          some { s with trace := s.trace ++ [Call.dbus_connection_send
            (DBusOut.signal AVAHI_DBUS_PATH_SERVER AVAHI_DBUS_INTERFACE_SERVER "StateChanged"
              [DBusArg.int32 state] none)] } := rfl
      rw [hs] at h
      have hI1 := Inv_step E hI _ hs
      rw [List.countP_cons] at hN ⊢
      simp only [is_new_request, Bool.false_eq_true, if_false, Nat.add_zero] at hN ⊢
      exact ih hI1 (Unwrapped_quiet hU rfl rfl rfl) hN h
    | message m =>
      have hs : step E (some s) (Event.message m) = some (dispatch E s m) := rfl
      rw [hs] at h
      rw [List.countP_cons] at hN ⊢
      cases hn : dbus_message_is_method_call m AVAHI_DBUS_INTERFACE_SERVER "EntryGroupNew" with
      | false =>
        have hn1 : is_new_request (Event.message m) = false := hn
        simp only [hn1, Bool.false_eq_true, if_false, Nat.add_zero] at hN ⊢
        exact ih (Inv_dispatch E hI m) (Unwrapped_dispatch_other E hI hU m hn) hN h
      | true =>
        have hn1 : is_new_request (Event.message m) = true := hn
        simp only [hn1, if_true] at hN ⊢
        have := ih (Inv_dispatch E hI m) (Unwrapped_dispatch_new E hI hU m (by omega))
          (by omega) h
        rw [show N + (List.countP is_new_request rest + 1) =
          N + 1 + List.countP is_new_request rest by omega]
        exact this

/-! ## Shutdown -/

theorem teardown_calls_append (a b : List EntryGroupInfo) :
    teardown_calls (a ++ b) = teardown_calls a ++ teardown_calls b := by
  simp [teardown_calls]

theorem shutdown_loop_spec (fuel : Nat) : ∀ (s : Server), Inv s → s.clients.length ≤ fuel →
    shutdown_loop fuel s =
      { s with
        trace := s.trace ++ teardown_calls (live s)
        objects := s.objects.filter
          (fun o => decide (o.1 ∉ (live s).map (fun g => g.path)))
        clients := [] } := by
  induction fuel with
  | zero =>
    intro s _ hlen
    have hnil : s.clients = [] := List.length_eq_zero.mp (Nat.le_zero.mp hlen)
    obtain ⟨objs, cs, cur, tr, al⟩ := s
    simp only at hnil
    simp [shutdown_loop, hnil, live, live_of, teardown_calls]
  | succ f ih =>
    intro s hI hlen
    cases hc : s.clients with
    | nil =>
      obtain ⟨objs, cs, cur, tr, al⟩ := s
      simp only at hc
      simp [shutdown_loop, hc, live, live_of, teardown_calls]
    | cons c rest =>
      have hs : s.clients = [] ++ c :: rest := by simp [hc]
      have hspec := client_free_spec hI hs
      have hI1 := Inv_client_free hI 0
      simp only [List.length_nil, List.nil_append] at hspec
      rw [hspec] at hI1
      simp only [shutdown_loop, hc]
      rw [hspec, ih _ hI1 (by simp only; rw [hc] at hlen; simpa using hlen)]
      simp only [live, hc, live_of_cons, teardown_calls_append, List.append_assoc,
        Server.mk.injEq, and_true, true_and, List.filter_filter]
      apply List.filter_congr
      intro o _
      simp only [List.map_append, List.mem_append, not_or, Bool.decide_and]
      exact Bool.and_comm _ _

theorem Inv_reachable (E : AvahiCore) {evs : List Event} {s : Server}
    (h : run E (some fresh_server) evs = some s) : Inv s :=
  Inv_run E evs Inv_fresh h

theorem Unwrapped_reachable (E : AvahiCore) {evs : List Event} {s : Server}
    (h : run E (some fresh_server) evs = some s)
    (hcount : evs.countP is_new_request ≤ 4294967296) :
    Unwrapped (evs.countP is_new_request) s := by
  have := Unwrapped_run E evs (N := 0) Inv_fresh Unwrapped_fresh
    (by simpa [GUINT_MOD] using hcount) h
  simpa using this

/-- C2, amended.  In every state reached from a freshly set-up server by a sequence of events
(messages, engine callbacks, shutdown) that holds at most 2^32 `EntryGroupNew` requests, every
live entry group has the path `/org/freedesktop/Avahi/Client<c>/EntryGroup<g>` built from its client's id
and its own id, and no two live entry groups, of one client or of two, have the same path. -/
theorem paths_unique_before_wrap (E : AvahiCore) (evs : List Event) (s : Server)
    (hreach : run E (some fresh_server) evs = some s)
    (hcount : evs.countP is_new_request ≤ 4294967296) :
    (∀ c ∈ s.clients, ∀ g ∈ c.entry_groups, g.path = entry_group_path c.id g.id) ∧
      ((live s).map (fun g => g.path)).Nodup :=
  ⟨(Inv_reachable E hreach).paths_wf,
   paths_nodup (Inv_reachable E hreach) (Unwrapped_reachable E hreach hcount)⟩

theorem paths_unique_before_wrap_witness :
    (∀ c ∈ (dispatch engine_ok sample_server (msg_new ":1.7")).clients,
        ∀ g ∈ c.entry_groups, g.path = entry_group_path c.id g.id) ∧
      ((live (dispatch engine_ok sample_server (msg_new ":1.7"))).map (fun g => g.path)).Nodup :=
  paths_unique_before_wrap engine_ok
    [Event.message (msg_new ":1.5"), Event.message (msg_new ":1.7")]
    (dispatch engine_ok sample_server (msg_new ":1.7")) (by rfl) (by decide)

/-- C8, amended.  In every state reached from a freshly set-up server by a sequence of events
(messages, engine callbacks, shutdown) that holds at most 2^32 `EntryGroupNew` requests, a path
is routable to an entry group exactly when it is the path of a live entry group; every live entry group is
in the list of exactly one client of the registry; and the teardown done by shutdown in that
state leaves no client, no live entry group and no routable path. -/
theorem no_dangling_routes_before_wrap (E : AvahiCore) (evs : List Event) (s : Server)
    (hreach : run E (some fresh_server) evs = some s)
    (hcount : evs.countP is_new_request ≤ 4294967296) :
    (∀ p, routable s p ↔ ∃ g ∈ live s, g.path = p) ∧
      (∀ g ∈ live s, ∃ c ∈ s.clients, g ∈ c.entry_groups ∧
        ∀ c1 ∈ s.clients, g ∈ c1.entry_groups → c1 = c) ∧
      ((shutdown_teardown s).clients = [] ∧ live (shutdown_teardown s) = [] ∧
        ∀ p, ¬ routable (shutdown_teardown s) p) := by
  have hI := Inv_reachable E hreach
  have hU := Unwrapped_reachable E hreach hcount
  refine ⟨fun p => ⟨?_, ?_⟩, ?_, ?_⟩
  · rintro ⟨i, hi⟩
    obtain ⟨g, hg, _, hp⟩ := hI.objects_sound p i (object_lookup_mem hi)
    exact ⟨g, hg, hp⟩
  · rintro ⟨g, hg, rfl⟩
    exact ⟨g.entry_group, object_lookup_of_mem hI.objects_keys (hU.registered g hg)⟩
  · intro g hg
    obtain ⟨c, hc, hgc⟩ := mem_live_of.mp hg
    refine ⟨c, hc, hgc, ?_⟩
    intro c1 hc1 hgc1
    by_contra hne
    have hn := hI.serials
    simp only [live, live_of, List.map_flatMap] at hn
    have hp := (List.nodup_flatMap.mp hn).2
    have hd := hp.forall (fun a b hab => List.Disjoint.symm hab) hc1 hc hne
    exact hd (List.mem_map_of_mem _ hgc1) (List.mem_map_of_mem _ hgc)
  · have hcl : (shutdown_teardown s).clients = [] := by
      simp only [shutdown_teardown]
      rw [shutdown_loop_spec _ s hI (Nat.le_refl _)]
    refine ⟨hcl, by simp [live, live_of, hcl], ?_⟩
    rintro p ⟨i, hi⟩
    simp [shutdown_teardown, object_lookup] at hi

theorem no_dangling_routes_before_wrap_witness :
    (∀ p, routable (dispatch engine_ok sample_server (msg_new ":1.7")) p ↔
        ∃ g ∈ live (dispatch engine_ok sample_server (msg_new ":1.7")), g.path = p) ∧
      (∀ g ∈ live (dispatch engine_ok sample_server (msg_new ":1.7")),
        ∃ c ∈ (dispatch engine_ok sample_server (msg_new ":1.7")).clients, g ∈ c.entry_groups ∧
        ∀ c1 ∈ (dispatch engine_ok sample_server (msg_new ":1.7")).clients,
          g ∈ c1.entry_groups → c1 = c) ∧
      ((shutdown_teardown (dispatch engine_ok sample_server (msg_new ":1.7"))).clients = [] ∧
        live (shutdown_teardown (dispatch engine_ok sample_server (msg_new ":1.7"))) = [] ∧
        ∀ p, ¬ routable (shutdown_teardown (dispatch engine_ok sample_server (msg_new ":1.7"))) p) :=
  no_dangling_routes_before_wrap engine_ok
    [Event.message (msg_new ":1.5"), Event.message (msg_new ":1.7")]
    (dispatch engine_ok sample_server (msg_new ":1.7")) (by rfl) (by decide)

theorem mem_of_index {cs : List Client} {k : Nat} {c : Client} (h : cs[k]? = some c) :
    c ∈ cs := by
  obtain ⟨pre, post, hs, _⟩ := getElem?_split h
  rw [hs]; simp

theorem client_find_index {cs : List Client} {n : String} {k : Nat}
    (h : client_find cs n = some k) : ∃ c, cs[k]? = some c ∧ c.name = n := by
  obtain ⟨pre, c, post, h1, h2, h3, _⟩ := client_find_some h
  exact ⟨c, by rw [h1, ← h2]; exact getElem?_append_cons pre post c, h3⟩

/-- C10.  In every state reached from a freshly set-up server by any sequence of events
(messages, engine callbacks, shutdown) no two client records have the same name.  So
`client_get` with `create = TRUE` returns the one record of that name and leaves the registry alone when such a
record exists, and `client_get` with `create = FALSE` never changes the registry and returns a
record, of that name, exactly when one exists. -/
theorem client_names_unique (E : AvahiCore) (evs : List Event) (s : Server)
    (hreach : run E (some fresh_server) evs = some s) (name : String) :
    (s.clients.map (fun c => c.name)).Nodup ∧
      ((∃ c ∈ s.clients, c.name = name) →
        ∃ k c, client_get s name true = (s, some k) ∧ s.clients[k]? = some c ∧ c.name = name ∧
          ∀ c1 ∈ s.clients, c1.name = name → c1 = c) ∧
      (client_get s name false).1 = s ∧
      ((client_get s name false).2.isSome ↔ ∃ c ∈ s.clients, c.name = name) ∧
      (∀ k, (client_get s name false).2 = some k →
        ∃ c, s.clients[k]? = some c ∧ c.name = name) := by
  have hI := Inv_reachable E hreach
  refine ⟨hI.names, ?_, ?_, ?_, ?_⟩
  · rintro ⟨c0, hc0, hn0⟩
    cases hf : client_find s.clients name with
    | none => exact absurd hn0 (client_find_none.mp hf c0 hc0)
    | some k =>
      obtain ⟨c, hk, hn⟩ := client_find_index hf
      refine ⟨k, c, by simp [client_get, hf], hk, hn, ?_⟩
      intro c1 hc1 hn1
      exact List.inj_on_of_nodup_map hI.names hc1 (mem_of_index hk) (by rw [hn1, hn])
  · rw [client_get_false]
  · rw [client_get_false]
    cases hf : client_find s.clients name with
    | none =>
      simp only [Option.isSome_none, Bool.false_eq_true, false_iff, not_exists, not_and]
      exact fun c hc => client_find_none.mp hf c hc
    | some k =>
      obtain ⟨c, hk, hn⟩ := client_find_index hf
      simp only [Option.isSome_some, true_iff]
      exact ⟨c, mem_of_index hk, hn⟩
  · intro k hk
    rw [client_get_false] at hk
    exact client_find_index hk

theorem client_names_unique_witness :
    ((dispatch engine_ok sample_server (msg_new ":1.7")).clients.map (fun c => c.name)).Nodup ∧
      ((∃ c ∈ (dispatch engine_ok sample_server (msg_new ":1.7")).clients, c.name = ":1.5") →
        ∃ k c, client_get (dispatch engine_ok sample_server (msg_new ":1.7")) ":1.5" true =
            (dispatch engine_ok sample_server (msg_new ":1.7"), some k) ∧
          (dispatch engine_ok sample_server (msg_new ":1.7")).clients[k]? = some c ∧
          c.name = ":1.5" ∧
          ∀ c1 ∈ (dispatch engine_ok sample_server (msg_new ":1.7")).clients,
            c1.name = ":1.5" → c1 = c) ∧
      (client_get (dispatch engine_ok sample_server (msg_new ":1.7")) ":1.5" false).1 =
        dispatch engine_ok sample_server (msg_new ":1.7") ∧
      ((client_get (dispatch engine_ok sample_server (msg_new ":1.7")) ":1.5" false).2.isSome ↔
        ∃ c ∈ (dispatch engine_ok sample_server (msg_new ":1.7")).clients, c.name = ":1.5") ∧
      (∀ k, (client_get (dispatch engine_ok sample_server (msg_new ":1.7")) ":1.5" false).2 =
          some k →
        ∃ c, (dispatch engine_ok sample_server (msg_new ":1.7")).clients[k]? = some c ∧
          c.name = ":1.5") :=
  client_names_unique engine_ok
    [Event.message (msg_new ":1.5"), Event.message (msg_new ":1.7")]
    (dispatch engine_ok sample_server (msg_new ":1.7")) (by rfl) ":1.5"

/-! ## Disconnect teardown -/

theorem is_signal_member {m : DBusMessage} {interface name : String}
    (h : dbus_message_is_signal m interface name = true) : m.member = name := by
  simp only [dbus_message_is_signal, Bool.and_eq_true, decide_eq_true_eq] at h
  exact h.1.2

theorem is_signal_other {m : DBusMessage} {interface name : String}
    (interface2 name2 : String)
    (h : dbus_message_is_signal m interface name = true) (hne : name ≠ name2) :
    dbus_message_is_signal m interface2 name2 = false := by
  have hm := is_signal_member h
  simp [dbus_message_is_signal, hm, hne]

theorem object_lookup_filter_paths (objs : List (String × Handler)) (l : List String)
    (p : String) :
    object_lookup (objs.filter (fun o => decide (o.1 ∉ l))) p =
      if p ∈ l then none else object_lookup objs p := by
  induction objs with
  | nil => simp [object_lookup]
  | cons o rest ih =>
    obtain ⟨q, h⟩ := o
    rw [List.filter_cons]
    by_cases hq : q ∈ l
    · simp only [hq, not_true_eq_false, decide_False, Bool.false_eq_true, if_false, ih,
        object_lookup]
      by_cases hp : p ∈ l
      · simp [hp]
      · have hqp : q ≠ p := fun he => hp (he ▸ hq)
        simp [hp, hqp]
    · simp only [hq, not_false_eq_true, decide_True, if_true, object_lookup, ih]
      by_cases hqp : q = p
      · have hp : p ∉ l := hqp ▸ hq
        simp [hqp, hp]
      · simp [hqp]

theorem teardown_calls_cons (g : EntryGroupInfo) (gs : List EntryGroupInfo) :
    teardown_calls (g :: gs) =
      Call.avahi_entry_group_free g.entry_group ::
        Call.dbus_connection_unregister_object_path g.path :: teardown_calls gs := by
  simp [teardown_calls]

theorem teardown_count_zero (gs : List EntryGroupInfo) (i : Nat)
    (h : ∀ g ∈ gs, g.entry_group ≠ i) :
    (teardown_calls gs).count (Call.avahi_entry_group_free i) = 0 := by
  induction gs with
  | nil => simp [teardown_calls]
  | cons g rest ih =>
    rw [teardown_calls_cons, List.count_cons, List.count_cons,
      ih (fun x hx => h x (List.mem_cons_of_mem _ hx))]
    have := h g (List.mem_cons_self _ _)
    simp [this]

theorem teardown_count_one (gs : List EntryGroupInfo)
    (hn : (gs.map (fun g => g.entry_group)).Nodup) :
    ∀ g ∈ gs, (teardown_calls gs).count (Call.avahi_entry_group_free g.entry_group) = 1 := by
  induction gs with
  | nil => simp
  | cons g0 rest ih =>
    simp only [List.map_cons, List.nodup_cons, List.mem_map, not_exists, not_and] at hn
    intro g hg
    rw [teardown_calls_cons, List.count_cons, List.count_cons]
    rcases List.mem_cons.mp hg with rfl | hg
    · rw [teardown_count_zero rest g.entry_group (fun x hx => hn.1 x hx)]
      simp
    · rw [ih hn.2 g hg]
      have : g0.entry_group ≠ g.entry_group := fun he => hn.1 g hg he.symm
      simp [this]

theorem filter_vanished_eq {s : Server} (hI : Inv s) {m : DBusMessage} {n old : String}
    (hsig : dbus_message_is_signal m DBUS_INTERFACE_DBUS "NameOwnerChanged" = true)
    (hargs : get_args_NameOwnerChanged m = some (n, old, ""))
    {pre post : List Client} {c : Client} (hs : s.clients = pre ++ c :: post)
    (hc : c.name = n) :
    msg_signal_filter_impl s m =
      ({ s with
         trace := s.trace ++ teardown_calls c.entry_groups
         objects := s.objects.filter
           (fun o => decide (o.1 ∉ c.entry_groups.map (fun g => g.path)))
         clients := pre ++ post }, DBusHandlerResult.NOT_YET_HANDLED) := by
  have h1 := is_signal_other DBUS_INTERFACE_LOCAL "Disconnected" hsig (by decide)
  have h2 := is_signal_other DBUS_INTERFACE_DBUS "NameAcquired" hsig (by decide)
  have hn := hI.names
  rw [hs] at hn
  simp only [List.map_append, List.map_cons] at hn
  have hpre : ∀ x ∈ pre, x.name ≠ n := by
    intro x hx he
    exact (List.nodup_append.mp hn).2.2 (List.mem_map_of_mem (fun c => c.name) hx)
      (by rw [he, ← hc]; exact List.mem_cons_self _ _)
  have hf : client_find s.clients n = some pre.length := by
    rw [hs]; exact client_find_append post hc hpre
  simp only [msg_signal_filter_impl, h1, h2, hsig, hargs, client_get_false, hf,
    Bool.false_eq_true, if_false, if_true]
  rw [client_free_spec hI hs]

/-- C3, amended.  In a reachable state, a `NameOwnerChanged` signal for identity `n` with an
empty new-owner field, when a client record `c` for `n` exists: (a) removes that record, and
no record for `n` remains; (b) destroys every entry group of `c`, head of its list first, each
engine group being freed exactly once, and afterwards none of their paths has a handler;
(c) leaves every other client record (with its list, counters and paths) and the server
counter as they were, and leaves the handler of every path that is not a path of one of the
entry groups of `c` as it was.  When the new-owner field is not empty, or no record for `n`
exists, the state is returned unchanged. -/
theorem disconnect_teardown (E : AvahiCore) (evs : List Event) (s : Server)
    (hreach : run E (some fresh_server) evs = some s) (m : DBusMessage) (n old new : String)
    (hsig : dbus_message_is_signal m DBUS_INTERFACE_DBUS "NameOwnerChanged" = true)
    (hargs : get_args_NameOwnerChanged m = some (n, old, new)) :
    (new = "" → ∀ pre c post, s.clients = pre ++ c :: post → c.name = n →
      (msg_signal_filter_impl s m).1.clients = pre ++ post ∧
      (∀ x ∈ (msg_signal_filter_impl s m).1.clients, x.name ≠ n) ∧
      (msg_signal_filter_impl s m).1.trace = s.trace ++ teardown_calls c.entry_groups ∧
      (∀ g ∈ c.entry_groups,
        (teardown_calls c.entry_groups).count (Call.avahi_entry_group_free g.entry_group) = 1 ∧
        object_lookup (msg_signal_filter_impl s m).1.objects g.path = none) ∧
      (∀ p, p ∉ c.entry_groups.map (fun g => g.path) →
        object_lookup (msg_signal_filter_impl s m).1.objects p = object_lookup s.objects p) ∧
      (msg_signal_filter_impl s m).1.current_id = s.current_id ∧
      (msg_signal_filter_impl s m).1.allocs = s.allocs) ∧
    ((new ≠ "" ∨ ∀ c ∈ s.clients, c.name ≠ n) → (msg_signal_filter_impl s m).1 = s) := by
  have hI := Inv_reachable E hreach
  constructor
  · intro hnew pre c post hs hc
    subst hnew
    rw [filter_vanished_eq hI hsig hargs hs hc]
    have hn := hI.names
    rw [hs] at hn
    simp only [List.map_append, List.map_cons] at hn
    refine ⟨rfl, ?_, rfl, ?_, ?_, rfl, rfl⟩
    · intro x hx he
      simp only at hx
      rcases List.mem_append.mp hx with h | h
      · exact (List.nodup_append.mp hn).2.2 (List.mem_map_of_mem (fun c => c.name) h)
          (by rw [he, ← hc]; exact List.mem_cons_self _ _)
      · exact (List.nodup_cons.mp (List.nodup_append.mp hn).2.1).1
          (by rw [hc, ← he]; exact List.mem_map_of_mem (fun c => c.name) h)
    · intro g hg
      have hser := hI.serials
      simp only [live, hs, live_of_append, live_of_cons, List.map_append] at hser
      have hcn := (List.nodup_append.mp (List.nodup_append.mp hser).2.1).1
      refine ⟨teardown_count_one _ hcn g hg, ?_⟩
      simp only [object_lookup_filter_paths]
      rw [if_pos (List.mem_map_of_mem (fun g => g.path) hg)]
    · intro p hp
      simp only [object_lookup_filter_paths]
      rw [if_neg hp]
  · intro h
    have h1 := is_signal_other DBUS_INTERFACE_LOCAL "Disconnected" hsig (by decide)
    have h2 := is_signal_other DBUS_INTERFACE_DBUS "NameAcquired" hsig (by decide)
    simp only [msg_signal_filter_impl, h1, h2, hsig, hargs, client_get_false,
      Bool.false_eq_true, if_false, if_true]
    rcases h with h | h
    · simp [h]
    · have hf : client_find s.clients n = none := client_find_none.mpr h
      simp only [hf]
      split_ifs <;> rfl

theorem disconnect_teardown_witness :
    (msg_signal_filter_impl sample_server2 (msg_vanished ":1.5")).1.clients =
        [⟨1, ":1.7", 1, [⟨1, 1, "/org/freedesktop/Avahi/Client1/EntryGroup1"⟩]⟩] ++ [] ∧
      (∀ x ∈ (msg_signal_filter_impl sample_server2 (msg_vanished ":1.5")).1.clients,
        x.name ≠ ":1.5") ∧
      (msg_signal_filter_impl sample_server2 (msg_vanished ":1.5")).1.trace =
        sample_server2.trace ++
          teardown_calls [⟨1, 0, "/org/freedesktop/Avahi/Client0/EntryGroup1"⟩] ∧
      (∀ g ∈ [(⟨1, 0, "/org/freedesktop/Avahi/Client0/EntryGroup1"⟩ : EntryGroupInfo)],
        (teardown_calls [⟨1, 0, "/org/freedesktop/Avahi/Client0/EntryGroup1"⟩]).count
            (Call.avahi_entry_group_free g.entry_group) = 1 ∧
        object_lookup (msg_signal_filter_impl sample_server2 (msg_vanished ":1.5")).1.objects
          g.path = none) ∧
      (∀ p, p ∉ [(⟨1, 0, "/org/freedesktop/Avahi/Client0/EntryGroup1"⟩ : EntryGroupInfo)].map
            (fun g => g.path) →
        object_lookup (msg_signal_filter_impl sample_server2 (msg_vanished ":1.5")).1.objects p =
          object_lookup sample_server2.objects p) ∧
      (msg_signal_filter_impl sample_server2 (msg_vanished ":1.5")).1.current_id =
        sample_server2.current_id ∧
      (msg_signal_filter_impl sample_server2 (msg_vanished ":1.5")).1.allocs =
        sample_server2.allocs :=
  (disconnect_teardown engine_ok
    [Event.message (msg_new ":1.5"), Event.message (msg_new ":1.7")] sample_server2 (by rfl)
    (msg_vanished ":1.5") ":1.5" ":1.5" "" (by decide) (by decide)).1 rfl
    [⟨1, ":1.7", 1, [⟨1, 1, "/org/freedesktop/Avahi/Client1/EntryGroup1"⟩]⟩]
    ⟨0, ":1.5", 1, [⟨1, 0, "/org/freedesktop/Avahi/Client0/EntryGroup1"⟩]⟩ [] (by decide)
    (by decide)

/-! ## Path and id assignment -/

theorem pre_names_ne {s : Server} (hI : Inv s) {pre post : List Client} {c : Client}
    (hs : s.clients = pre ++ c :: post) : ∀ x ∈ pre, x.name ≠ c.name := by
  have hn := hI.names
  rw [hs] at hn
  simp only [List.map_append, List.map_cons] at hn
  intro x hx he
  exact (List.nodup_append.mp hn).2.2 (List.mem_map_of_mem (fun c => c.name) hx)
    (by rw [he]; exact List.mem_cons_self _ _)

theorem routable_register {s : Server} (hI : Inv s) (c g i : Nat) :
    ∃ j, object_lookup (register_object_path s.objects (entry_group_path c g)
      (Handler.entry_group i)) (entry_group_path c g) = some (Handler.entry_group j) := by
  unfold register_object_path
  cases hl : object_lookup s.objects (entry_group_path c g) with
  | none => exact ⟨i, by simp [object_lookup]⟩
  | some h =>
    cases h with
    | server =>
      exact absurd (hI.server_only _ (object_lookup_mem hl)) (entry_group_path_ne_server c g)
    | entry_group j => exact ⟨j, by simp [hl]⟩

theorem msg_server_impl_new (E : AvahiCore) (s : Server) {m : DBusMessage}
    (hcall : dbus_message_is_method_call m AVAHI_DBUS_INTERFACE_SERVER "EntryGroupNew" = true) :
    msg_server_impl E s m = server_EntryGroupNew s m := by
  have h1 := is_method_call_other AVAHI_DBUS_INTERFACE_SERVER "GetHostName" hcall (by decide)
  have h2 := is_method_call_other AVAHI_DBUS_INTERFACE_SERVER "GetDomainName" hcall (by decide)
  have h3 := is_method_call_other AVAHI_DBUS_INTERFACE_SERVER "GetHostNameFqdn" hcall
    (by decide)
  simp [msg_server_impl, h1, h2, h3, hcall, get_args_none]

/-- C7, amended.  For an `EntryGroupNew` request received in a reachable state:
when the sender has a client record with numeric id `c` and counter `n`, the request puts at
the head of that client's list a record with id `(n + 1) mod 2^32` and sets the counter to
that value; when the sender has no record, a record with id the server counter's value `c` is
put at the head of the registry (the server counter becoming `(c + 1) mod 2^32`), holding one
entry group with id 1 and counter 1.  In both cases the path
`/org/freedesktop/Avahi/Client<c>/EntryGroup<id>` has an entry-group handler afterwards and is
the object path sent in the reply, every other record is unchanged, and on a freshly set-up
server the reply carries `/org/freedesktop/Avahi/Client0/EntryGroup1`. -/
theorem entry_group_new_assigns (E : AvahiCore) (evs : List Event) (s : Server)
    (hreach : run E (some fresh_server) evs = some s) (m : DBusMessage)
    (hcall : dbus_message_is_method_call m AVAHI_DBUS_INTERFACE_SERVER "EntryGroupNew" = true) :
    (∀ pre c post, s.clients = pre ++ c :: post → c.name = m.sender →
      (msg_server_impl E s m).1.clients =
        pre ++ { c with
                 current_id := (c.current_id + 1) % 4294967296
                 entry_groups :=
                   { id := (c.current_id + 1) % 4294967296, entry_group := s.allocs,
                     path := entry_group_path c.id ((c.current_id + 1) % 4294967296) }
                     :: c.entry_groups } :: post ∧
      (msg_server_impl E s m).1.current_id = s.current_id ∧
      routable (msg_server_impl E s m).1
        (entry_group_path c.id ((c.current_id + 1) % 4294967296)) ∧
      (msg_server_impl E s m).1.trace.getLast? =
        some (Call.dbus_connection_send (DBusOut.method_return m
          [DBusArg.object_path (entry_group_path c.id ((c.current_id + 1) % 4294967296))]))) ∧
    ((∀ x ∈ s.clients, x.name ≠ m.sender) →
      (msg_server_impl E s m).1.clients =
        { id := s.current_id, name := m.sender, current_id := 1,
          entry_groups :=
            [{ id := 1, entry_group := s.allocs, path := entry_group_path s.current_id 1 }] }
          :: s.clients ∧
      (msg_server_impl E s m).1.current_id = (s.current_id + 1) % 4294967296 ∧
      routable (msg_server_impl E s m).1 (entry_group_path s.current_id 1) ∧
      (msg_server_impl E s m).1.trace.getLast? =
        some (Call.dbus_connection_send (DBusOut.method_return m
          [DBusArg.object_path (entry_group_path s.current_id 1)]))) ∧
    (msg_server_impl E fresh_server m).1.trace.getLast? =
      some (Call.dbus_connection_send (DBusOut.method_return m
        [DBusArg.object_path "/org/freedesktop/Avahi/Client0/EntryGroup1"])) := by
  have hI := Inv_reachable E hreach
  refine ⟨?_, ?_, ?_⟩
  · intro pre c post hs hc
    have hpre : ∀ x ∈ pre, x.name ≠ m.sender := by rw [← hc]; exact pre_names_ne hI hs
    rw [msg_server_impl_new E s hcall, new_existing_eq hs hc hpre]
    refine ⟨rfl, rfl, ?_, ?_⟩
    · exact routable_register hI _ _ _
    · simp [GUINT_MOD]
  · intro hnone
    rw [msg_server_impl_new E s hcall, new_fresh_eq (client_find_none.mpr hnone)]
    refine ⟨rfl, rfl, ?_, ?_⟩
    · exact routable_register hI _ _ _
    · simp [GUINT_MOD]
  · rw [msg_server_impl_new E fresh_server hcall,
      new_fresh_eq (s := fresh_server) (by simp [fresh_server, client_find])]
    have : entry_group_path fresh_server.current_id 1 =
        "/org/freedesktop/Avahi/Client0/EntryGroup1" := by decide
    simp [this]

theorem entry_group_new_assigns_witness :
    (msg_server_impl engine_ok sample_server2 (msg_new ":1.5")).1.clients =
        [⟨1, ":1.7", 1, [⟨1, 1, "/org/freedesktop/Avahi/Client1/EntryGroup1"⟩]⟩] ++
          { (⟨0, ":1.5", 1, [⟨1, 0, "/org/freedesktop/Avahi/Client0/EntryGroup1"⟩]⟩ : Client) with
            current_id := (1 + 1) % 4294967296
            entry_groups :=
              { id := (1 + 1) % 4294967296, entry_group := sample_server2.allocs,
                path := entry_group_path 0 ((1 + 1) % 4294967296) }
                :: [⟨1, 0, "/org/freedesktop/Avahi/Client0/EntryGroup1"⟩] } :: [] ∧
      (msg_server_impl engine_ok sample_server2 (msg_new ":1.5")).1.current_id =
        sample_server2.current_id ∧
      routable (msg_server_impl engine_ok sample_server2 (msg_new ":1.5")).1
        (entry_group_path 0 ((1 + 1) % 4294967296)) ∧
      (msg_server_impl engine_ok sample_server2 (msg_new ":1.5")).1.trace.getLast? =
        some (Call.dbus_connection_send (DBusOut.method_return (msg_new ":1.5")
          [DBusArg.object_path (entry_group_path 0 ((1 + 1) % 4294967296))])) :=
  (entry_group_new_assigns engine_ok
    [Event.message (msg_new ":1.5"), Event.message (msg_new ":1.7")] sample_server2 (by rfl)
    (msg_new ":1.5") (by decide)).1
    [⟨1, ":1.7", 1, [⟨1, 1, "/org/freedesktop/Avahi/Client1/EntryGroup1"⟩]⟩]
    ⟨0, ":1.5", 1, [⟨1, 0, "/org/freedesktop/Avahi/Client0/EntryGroup1"⟩]⟩ [] (by decide)
    (by decide)

/-! ## Teardown order -/

theorem dispatch_new_eq (E : AvahiCore) {s : Server} (hI : Inv s) (A : String) :
    dispatch E s (msg_new A) = (server_EntryGroupNew s (msg_new A)).1 := by
  have hl : object_lookup s.objects AVAHI_DBUS_PATH_SERVER = some Handler.server :=
    object_lookup_of_mem hI.objects_keys hI.server_obj
  have hcall : dbus_message_is_method_call (msg_new A) AVAHI_DBUS_INTERFACE_SERVER
      "EntryGroupNew" = true := by
    simp [dbus_message_is_method_call, msg_new, method_call]
  have hf : msg_signal_filter_impl s (msg_new A) = (s, DBusHandlerResult.NOT_YET_HANDLED) := by
    simp [msg_signal_filter_impl, dbus_message_is_signal, msg_new, method_call]
  have hp : (msg_new A).path = AVAHI_DBUS_PATH_SERVER := rfl
  simp only [dispatch, hf, hp, hl, msg_server_impl_new E s hcall]

theorem run_singleton (E : AvahiCore) (s : Server) (m : DBusMessage) :
    run E (some s) [Event.message m] = some (dispatch E s m) := rfl

theorem entry_group_path_eq_iff (a b c d : Nat) :
    entry_group_path a b = entry_group_path c d ↔ a = c ∧ b = d :=
  ⟨entry_group_path_inj, fun h => by rw [h.1, h.2]⟩

theorem dispatch_vanished_eq (E : AvahiCore) {s : Server} (hI : Inv s) (n : String)
    (pre post : List Client) {c : Client} (hs : s.clients = pre ++ c :: post)
    (hc : c.name = n)
    (hl : object_lookup (s.objects.filter
      (fun o => decide (o.1 ∉ c.entry_groups.map (fun g => g.path))))
        "/org/freedesktop/DBus" = none) :
    dispatch E s (msg_vanished n) =
      { s with
        trace := s.trace ++ teardown_calls c.entry_groups
        objects := s.objects.filter
          (fun o => decide (o.1 ∉ c.entry_groups.map (fun g => g.path)))
        clients := pre ++ post } := by
  have hsig : dbus_message_is_signal (msg_vanished n) DBUS_INTERFACE_DBUS
      "NameOwnerChanged" = true := by
    simp [dbus_message_is_signal, msg_vanished]
  have hargs : get_args_NameOwnerChanged (msg_vanished n) = some (n, n, "") := rfl
  have hp : (msg_vanished n).path = "/org/freedesktop/DBus" := rfl
  simp only [dispatch, filter_vanished_eq hI hsig hargs hs hc, hp, hl]

theorem path01_literal :
    entry_group_path 0 1 = "/org/freedesktop/Avahi/Client0/EntryGroup1" := by decide

theorem churn_state_of {s : Server} {k : Nat}
    (ho : s.objects = [(entry_group_path 0 1, Handler.entry_group 0),
      (AVAHI_DBUS_PATH_SERVER, Handler.server)])
    (hc : s.clients = [⟨0, ":1.5", 1, [⟨1, 0, entry_group_path 0 1⟩]⟩])
    (hi : s.current_id = (k + 1) % GUINT_MOD) (ha : s.allocs = k + 1) :
    ∃ tr, s = churn_state k tr := by
  refine ⟨s.trace, ?_⟩
  obtain ⟨o, c, i, t, a⟩ := s
  simp only at ho hc hi ha
  simp [churn_state, ho, hc, hi, ha]

theorem churn_round (E : AvahiCore) (k : Nat) (hk : k + 1 < GUINT_MOD) (tr : List Call)
    (hI : Inv (churn_state k tr)) :
    ∃ tr1, run E (some (churn_state k tr))
      [Event.message (msg_new ":1.7"), Event.message (msg_vanished ":1.7")] =
        some (churn_state (k + 1) tr1) := by
  have hx : (k + 1) % GUINT_MOD = k + 1 := Nat.mod_eq_of_lt hk
  have hf : client_find (churn_state k tr).clients (msg_new ":1.7").sender = none := by
    simp [churn_state, client_find, msg_new, method_call]
  have hI1 := Inv_dispatch E hI (msg_new ":1.7")
  have h1 : dispatch E (churn_state k tr) (msg_new ":1.7") =
      (server_EntryGroupNew (churn_state k tr) (msg_new ":1.7")).1 := dispatch_new_eq E hI _
  rw [h1, new_fresh_eq hf] at hI1
  have hreg : register_object_path (churn_state k tr).objects
      (entry_group_path (churn_state k tr).current_id 1)
      (Handler.entry_group (churn_state k tr).allocs) =
      (entry_group_path (k + 1) 1, Handler.entry_group (k + 1)) ::
        (churn_state k tr).objects := by
    simp [register_object_path, churn_state, object_lookup, hx, entry_group_path_eq_iff,
      (entry_group_path_ne_server _ _).symm]
  rw [hreg] at hI1
  have hfil : List.filter (fun o => decide (o.1 ∉ [entry_group_path (k + 1) 1]))
      ((entry_group_path (k + 1) 1, Handler.entry_group (k + 1)) ::
        (churn_state k tr).objects) = (churn_state k tr).objects := by
    simp [churn_state, List.filter_cons, entry_group_path_eq_iff,
      (entry_group_path_ne_server _ _).symm]
  have hlook : object_lookup (churn_state k tr).objects "/org/freedesktop/DBus" = none := by
    simp [churn_state, object_lookup, path01_literal, AVAHI_DBUS_PATH_SERVER]
  have hcur : (churn_state k tr).current_id = k + 1 := hx
  have h2 := dispatch_vanished_eq E hI1 ":1.7" [] (churn_state k tr).clients rfl rfl (by
    simp only [List.map_cons, List.map_nil, hcur]
    rw [hfil]; exact hlook)
  have hrun : run E (some (churn_state k tr))
      [Event.message (msg_new ":1.7"), Event.message (msg_vanished ":1.7")] =
      some (dispatch E (dispatch E (churn_state k tr) (msg_new ":1.7")) (msg_vanished ":1.7")) :=
    rfl
  obtain ⟨tr1, htr⟩ := churn_state_of (k := k + 1)
    (s := dispatch E (dispatch E (churn_state k tr) (msg_new ":1.7")) (msg_vanished ":1.7"))
    (by
      rw [h1, new_fresh_eq hf, hreg, h2]
      simp only [List.map_cons, List.map_nil, hcur]
      rw [hfil]; rfl)
    (by rw [h1, new_fresh_eq hf, hreg, h2]; rfl)
    (by rw [h1, new_fresh_eq hf, hreg, h2]; simp only [hcur])
    (by rw [h1, new_fresh_eq hf, hreg, h2]; rfl)
  exact ⟨tr1, by rw [hrun, htr]⟩

theorem churn_spec (E : AvahiCore) : ∀ k : Nat, k ≤ 4294967295 →
    ∃ tr, run E (some fresh_server) (Event.message (msg_new ":1.5") :: churn k) =
      some (churn_state k tr) := by
  intro k
  induction k with
  | zero =>
    intro _
    have h1 : dispatch E fresh_server (msg_new ":1.5") =
        (server_EntryGroupNew fresh_server (msg_new ":1.5")).1 := dispatch_new_eq E Inv_fresh _
    have hf : client_find fresh_server.clients (msg_new ":1.5").sender = none := by
      simp [fresh_server, client_find]
    have hreg : register_object_path fresh_server.objects
        (entry_group_path fresh_server.current_id 1)
        (Handler.entry_group fresh_server.allocs) =
        [(entry_group_path 0 1, Handler.entry_group 0),
         (AVAHI_DBUS_PATH_SERVER, Handler.server)] := by
      simp [register_object_path, fresh_server, object_lookup,
        (entry_group_path_ne_server _ _).symm]
    obtain ⟨tr1, htr⟩ := churn_state_of (k := 0)
      (s := dispatch E fresh_server (msg_new ":1.5"))
      (by rw [h1, new_fresh_eq hf, hreg])
      (by rw [h1, new_fresh_eq hf]; rfl)
      (by rw [h1, new_fresh_eq hf]; rfl)
      (by rw [h1, new_fresh_eq hf]; rfl)
    exact ⟨tr1, by rw [← htr]; rfl⟩
  | succ k ih =>
    intro hk
    obtain ⟨tr, hrun⟩ := ih (by omega)
    have hI : Inv (churn_state k tr) := Inv_reachable E hrun
    obtain ⟨tr1, h1⟩ := churn_round E k (by simp only [GUINT_MOD]; omega) tr hI
    refine ⟨tr1, ?_⟩
    have : Event.message (msg_new ":1.5") :: churn (k + 1) =
        (Event.message (msg_new ":1.5") :: churn k) ++
          [Event.message (msg_new ":1.7"), Event.message (msg_vanished ":1.7")] := by
      simp [churn]
    rw [this, run_append, hrun, h1]

theorem wrap_spec (E : AvahiCore) :
    ∃ tr, run E (some fresh_server) wrap_events = some (wrap_state tr) := by
  obtain ⟨tr, hrun⟩ := churn_spec E 4294967295 (Nat.le_refl _)
  have hI : Inv (churn_state 4294967295 tr) := Inv_reachable E hrun
  have hcur : (churn_state 4294967295 tr).current_id = 0 := by
    simp [churn_state, GUINT_MOD]
  have hal : (churn_state 4294967295 tr).allocs = 4294967296 := by
    simp [churn_state]
  have h1 : dispatch E (churn_state 4294967295 tr) (msg_new ":1.7") =
      (server_EntryGroupNew (churn_state 4294967295 tr) (msg_new ":1.7")).1 :=
    dispatch_new_eq E hI _
  have hf : client_find (churn_state 4294967295 tr).clients (msg_new ":1.7").sender = none := by
    simp [churn_state, client_find, msg_new, method_call]
  have hreg : register_object_path (churn_state 4294967295 tr).objects
      (entry_group_path 0 1) (Handler.entry_group 4294967296) =
      (churn_state 4294967295 tr).objects := by
    simp [register_object_path, churn_state, object_lookup]
  refine ⟨tr ++ [Call.avahi_entry_group_new 4294967296,
    Call.dbus_connection_register_object_path (entry_group_path 0 1)
      (Handler.entry_group 4294967296),
    Call.dbus_connection_send (DBusOut.method_return (msg_new ":1.7")
      [DBusArg.object_path (entry_group_path 0 1)])], ?_⟩
  have hsplit : wrap_events = (Event.message (msg_new ":1.5") :: churn 4294967295) ++
      [Event.message (msg_new ":1.7")] := rfl
  rw [hsplit, run_append, hrun, run_singleton, h1, new_fresh_eq hf]
  simp only [hcur, hal, hreg]
  simp only [wrap_state, churn_state, Option.some.injEq, Server.mk.injEq, true_and, and_true,
    msg_new, method_call, GUINT_MOD]

theorem wrap_state_vanished (tr : List Call) (hI : Inv (wrap_state tr)) :
    msg_signal_filter_impl (wrap_state tr) (msg_vanished ":1.7") =
      ({ wrap_state tr with
         trace := tr ++ teardown_calls
           [{ id := 1, entry_group := 4294967296, path := entry_group_path 0 1 }]
         objects := [(AVAHI_DBUS_PATH_SERVER, Handler.server)]
         clients := [{ id := 0, name := ":1.5", current_id := 1,
                       entry_groups :=
                         [{ id := 1, entry_group := 0, path := entry_group_path 0 1 }] }] },
       DBusHandlerResult.NOT_YET_HANDLED) := by
  have hsig : dbus_message_is_signal (msg_vanished ":1.7") DBUS_INTERFACE_DBUS
      "NameOwnerChanged" = true := by decide
  have hargs : get_args_NameOwnerChanged (msg_vanished ":1.7") = some (":1.7", ":1.7", "") := rfl
  have h := @filter_vanished_eq (wrap_state tr) hI (msg_vanished ":1.7") ":1.7" ":1.7" hsig hargs
    [] [⟨0, ":1.5", 1, [⟨1, 0, entry_group_path 0 1⟩]⟩]
    ⟨0, ":1.7", 1, [⟨1, 4294967296, entry_group_path 0 1⟩]⟩ rfl rfl
  rw [h]
  simp [wrap_state, List.filter_cons, (entry_group_path_ne_server _ _).symm]

/-- C2, as stated, fails: after `wrap_events` the registry holds two live entry groups, one
owned by client `:1.7` (engine group 4294967296) and one by client `:1.5` (engine group 0), and
both have the path `/org/freedesktop/Avahi/Client0/EntryGroup1`. -/
theorem paths_collide_after_wrap :
    ∃ s, run engine_ok (some fresh_server) wrap_events = some s ∧
      s.clients =
        [⟨0, ":1.7", 1, [⟨1, 4294967296, "/org/freedesktop/Avahi/Client0/EntryGroup1"⟩]⟩,
         ⟨0, ":1.5", 1, [⟨1, 0, "/org/freedesktop/Avahi/Client0/EntryGroup1"⟩]⟩] ∧
      ¬ ((live s).map (fun g => g.path)).Nodup := by
  obtain ⟨tr, hrun⟩ := wrap_spec engine_ok
  refine ⟨wrap_state tr, hrun, ?_, ?_⟩
  · simp [wrap_state, path01_literal]
  · simp [live, live_of, wrap_state]

/-- C3, as stated, fails: after `wrap_events` both clients are registered and the path of the
entry group of client `:1.5` is routable; when client `:1.7` vanishes that path, which client
`:1.5` still owns, stops being routable. -/
theorem disconnect_unroutes_other_peer :
    ∃ s, run engine_ok (some fresh_server) wrap_events = some s ∧
      s.clients =
        [⟨0, ":1.7", 1, [⟨1, 4294967296, "/org/freedesktop/Avahi/Client0/EntryGroup1"⟩]⟩,
         ⟨0, ":1.5", 1, [⟨1, 0, "/org/freedesktop/Avahi/Client0/EntryGroup1"⟩]⟩] ∧
      routable s "/org/freedesktop/Avahi/Client0/EntryGroup1" ∧
      (msg_signal_filter_impl s (msg_vanished ":1.7")).1.clients =
        [⟨0, ":1.5", 1, [⟨1, 0, "/org/freedesktop/Avahi/Client0/EntryGroup1"⟩]⟩] ∧
      ¬ routable (msg_signal_filter_impl s (msg_vanished ":1.7")).1
        "/org/freedesktop/Avahi/Client0/EntryGroup1" := by
  obtain ⟨tr, hrun⟩ := wrap_spec engine_ok
  have hI : Inv (wrap_state tr) := Inv_reachable engine_ok hrun
  refine ⟨wrap_state tr, hrun, ?_, ?_, ?_, ?_⟩
  · simp [wrap_state, path01_literal]
  · exact ⟨0, by simp [wrap_state, object_lookup, path01_literal]⟩
  · rw [wrap_state_vanished tr hI]
    simp [path01_literal]
  · rw [wrap_state_vanished tr hI]
    rintro ⟨i, hi⟩
    simp [object_lookup, AVAHI_DBUS_PATH_SERVER] at hi

/-- C8, as stated, fails: after `wrap_events_gone` the entry group of client `:1.5` is still
live, in the list of its client, and no handler is registered at its path. -/
theorem live_group_unrouted_after_wrap :
    ∃ s, run engine_ok (some fresh_server) wrap_events_gone = some s ∧
      s.clients = [⟨0, ":1.5", 1, [⟨1, 0, "/org/freedesktop/Avahi/Client0/EntryGroup1"⟩]⟩] ∧
      object_lookup s.objects "/org/freedesktop/Avahi/Client0/EntryGroup1" = none ∧
      ¬ (∀ p, routable s p ↔ ∃ g ∈ live s, g.path = p) := by
  obtain ⟨tr, hrun⟩ := wrap_spec engine_ok
  have hI : Inv (wrap_state tr) := Inv_reachable engine_ok hrun
  have hv := wrap_state_vanished tr hI
  have hd : dispatch engine_ok (wrap_state tr) (msg_vanished ":1.7") =
      (msg_signal_filter_impl (wrap_state tr) (msg_vanished ":1.7")).1 := by
    simp only [dispatch, hv]
    simp [msg_vanished, object_lookup, AVAHI_DBUS_PATH_SERVER]
  have hrun1 : run engine_ok (some fresh_server) wrap_events_gone =
      some (msg_signal_filter_impl (wrap_state tr) (msg_vanished ":1.7")).1 := by
    simp only [wrap_events_gone]
    rw [run_append, hrun, run_singleton, hd]
  rw [hv] at hrun1
  refine ⟨_, hrun1, ?_, ?_, ?_⟩
  · simp [path01_literal]
  · simp [object_lookup, AVAHI_DBUS_PATH_SERVER]
  · intro h
    have := (h "/org/freedesktop/Avahi/Client0/EntryGroup1").mpr
      ⟨⟨1, 0, entry_group_path 0 1⟩, by simp [live, live_of], path01_literal⟩
    obtain ⟨i, hi⟩ := this
    simp [object_lookup, AVAHI_DBUS_PATH_SERVER] at hi

theorem counter_run_spec (E : AvahiCore) (A : String) : ∀ k : Nat,
    ∃ t c, run E (some fresh_server) (List.replicate (k + 1) (Event.message (msg_new A))) =
        some t ∧
      t.clients = [c] ∧ c.id = 0 ∧ c.name = A ∧ c.current_id = (k + 1) % GUINT_MOD := by
  intro k
  induction k with
  | zero =>
    have h1 : dispatch E fresh_server (msg_new A) =
        (server_EntryGroupNew fresh_server (msg_new A)).1 := dispatch_new_eq E Inv_fresh _
    have hf : client_find fresh_server.clients (msg_new A).sender = none := by
      simp [fresh_server, client_find]
    refine ⟨dispatch E fresh_server (msg_new A),
      ⟨0, A, 1, [⟨1, 0, entry_group_path 0 1⟩]⟩, rfl, ?_, rfl, rfl, rfl⟩
    rw [h1, new_fresh_eq hf]
    rfl
  | succ k ih =>
    obtain ⟨t, c, hrun, hcl, hid, hname, hcur⟩ := ih
    have hI : Inv t := Inv_reachable E hrun
    have hs : t.clients = [] ++ c :: [] := by simp [hcl]
    have h1 : dispatch E t (msg_new A) = (server_EntryGroupNew t (msg_new A)).1 :=
      dispatch_new_eq E hI _
    refine ⟨dispatch E t (msg_new A),
      ⟨c.id, c.name, (c.current_id + 1) % GUINT_MOD,
        ⟨(c.current_id + 1) % GUINT_MOD, t.allocs,
          entry_group_path c.id ((c.current_id + 1) % GUINT_MOD)⟩ :: c.entry_groups⟩,
      ?_, ?_, ?_, ?_, ?_⟩
    · rw [List.replicate_succ', run_append, hrun, run_singleton]
    · rw [h1, new_existing_eq hs hname (by simp)]
      rfl
    · exact hid
    · exact hname
    · simp only [hcur, GUINT_MOD]
      omega

/-- C7, as stated, fails: after 4294967295 requests `EntryGroupNew` from client `:1.5` its record
has numeric id 0 and counter `n = 4294967295`; the next `EntryGroupNew` from `:1.5` creates an
entry group with id 0 (not `n + 1`), sets the counter to 0 and uses the path
`/org/freedesktop/Avahi/Client0/EntryGroup0`. -/
theorem entry_group_id_wraps :
    ∃ s c, run engine_ok (some fresh_server)
        (List.replicate 4294967295 (Event.message (msg_new ":1.5"))) = some s ∧
      s.clients = [c] ∧ c.name = ":1.5" ∧ c.id = 0 ∧ c.current_id = 4294967295 ∧
      (msg_server_impl engine_ok s (msg_new ":1.5")).1.clients =
        [{ c with
           current_id := 0
           entry_groups := ⟨0, s.allocs, "/org/freedesktop/Avahi/Client0/EntryGroup0"⟩
             :: c.entry_groups }] := by
  obtain ⟨t, c, hrun, hcl, hid, hname, hcur⟩ := counter_run_spec engine_ok ":1.5" 4294967294
  have hcur1 : c.current_id = 4294967295 := by
    rw [hcur]; simp [GUINT_MOD]
  have hs : t.clients = [] ++ c :: [] := by simp [hcl]
  have hcall : dbus_message_is_method_call (msg_new ":1.5") AVAHI_DBUS_INTERFACE_SERVER
      "EntryGroupNew" = true := by decide
  have hp : entry_group_path 0 0 = "/org/freedesktop/Avahi/Client0/EntryGroup0" := by decide
  refine ⟨t, c, hrun, hcl, hname, hid, hcur1, ?_⟩
  rw [msg_server_impl_new engine_ok t hcall, new_existing_eq hs hname (by simp)]
  simp [GUINT_MOD, hp, hid, hcur1]

end Avahi
